import Mathlib

/-!
# Reddit Enhancement Suite: user tagger and stylesheet rule evaluator

A shallow embedding of `lib/modules/userTagger.js` and of the rule evaluator
`shouldApply` and the reconciliation `loadStylesheets` of
`lib/modules/stylesheet.js`, with the properties of the tagging engine stated
and proved over it.

Conventions of the embedding:

* JavaScript strings are Lean strings; `toLowerCase` is modelled on the ASCII
  range, which covers user names (`[\w-]+`) and subreddit names (`[\w_]+`).
  Where the code lowercases text the user types, a tag or a colour, the mapping
  of the engine is a parameter (`TableEnv.toLowerCase`).
* A JavaScript object is an association list in insertion order; a missing
  property (`undefined`) is `none`. Where the truth value of `tags[key]` decides,
  the properties every object inherits are found as well (`readTags`).
* A vote weight is an integer-valued double, carried as the integer it
  denotes. An increment or decrement of one is rounded back to a double
  (`roundDouble`), and `parseInt(x, 10)` of such a number goes through its
  decimal rendering (`parseIntNumber`). `NaN`, the infinities and values beyond
  the largest finite double are outside the embedding.
* A function that mutates module state takes the state and returns the new one.
-/

namespace RES

/-! ## JavaScript primitives -/

/-- The method `String.prototype.toLowerCase`, on the ASCII range. -/
def toLowerCase (s : String) : String := ⟨s.data.map Char.toLower⟩

/-- Truthiness of a value that is `undefined` or a string: only a non-empty
string is truthy. -/
def truthy : Option String → Bool
  | some s => s != ""
  | none => false

/-- Worker of `splitOn`: `acc` holds the characters of the current piece,
most recent first. -/
def splitAux (sep : Char) : List Char → List Char → List String
  | [], acc => [String.mk acc.reverse]
  | c :: cs, acc =>
    if c = sep then String.mk acc.reverse :: splitAux sep cs [] else splitAux sep cs (c :: acc)

/-- The method `String.prototype.split` with a one-character separator: `"".split(",")` is `[""]`. -/
def splitOn (s : String) (sep : Char) : List String := splitAux sep s.data []

/-- The UTF-16 code units of a string, which JavaScript compares. -/
def codeUnits : List Char → List Nat
  | [] => []
  | c :: cs =>
    if c.toNat < 65536 then c.toNat :: codeUnits cs
    else (55296 + (c.toNat - 65536) / 1024) :: (56320 + (c.toNat - 65536) % 1024) :: codeUnits cs

/-- Lexicographic order on code unit sequences. -/
def lexLt : List Nat → List Nat → Bool
  | [], [] => false
  | [], _ :: _ => true
  | _ :: _, [] => false
  | a :: as, b :: bs => if a < b then true else if b < a then false else lexLt as bs

/-- The relational operator `x < y` on two strings. -/
def jsLt (x y : String) : Bool := lexLt (codeUnits x.data) (codeUnits y.data)

/-- The relational operator `x > y` on two strings. -/
def jsGt (x y : String) : Bool := jsLt y x

/-- The number of binary digits of `n`. -/
def bitLength (n : Nat) : Nat := if n = 0 then 0 else (Nat.toDigits 2 n).length

/-- The number of decimal digits of `n`. -/
def decimalLength (n : Nat) : Nat := (Nat.toDigits 10 n).length

/-- The double nearest to the natural number `z`, ties to the even significand:
what an arithmetic operation with the exact result `z` yields. Up to `2 ^ 53`
every natural number is a double; above, only the 53 leading binary digits are
kept. -/
def roundDoubleNat (z : Nat) : Nat :=
  if z ≤ 2 ^ 53 then z
  else
    let e := bitLength z - 53
    let q := z / 2 ^ e
    let r := z % 2 ^ e
    let half := 2 ^ (e - 1)
    let q := if half < r ∨ (r = half ∧ q % 2 = 1) then q + 1 else q
    q * 2 ^ e

/-- The double nearest to the integer `z`; rounding is symmetric in the sign. -/
def roundDouble (z : Int) : Int :=
  if z < 0 then -((roundDoubleNat z.natAbs : Nat) : Int)
  else ((roundDoubleNat z.natAbs : Nat) : Int)

/-- A significand `s` of `k` decimal digits with `s * 10 ^ (n - k)` rounding to the double
`x`, if there is one: the condition of `Number::toString` on `n`, `k` and `s`. Only the
two integers next to `x / 10 ^ (n - k)` can qualify. -/
def digitCandidate (x k n : Nat) : Option Nat :=
  ([x / 10 ^ (n - k), x / 10 ^ (n - k) + 1].filter fun s =>
    10 ^ (k - 1) ≤ s ∧ s < 10 ^ k ∧ roundDoubleNat (s * 10 ^ (n - k)) = x).head?

/-- Worker of `leadingDigit`: tries the digit counts `k` in the order given, with the
exponent `n` either the number of digits of `x` or one more. -/
def leadingDigitFrom (x : Nat) : List Nat → Nat
  | [] => x / 10 ^ (decimalLength x - 1)
  | k :: ks =>
    match digitCandidate x k (decimalLength x) with
    | some s => s / 10 ^ (k - 1)
    | none =>
      match digitCandidate x k (decimalLength x + 1) with
      | some s => s / 10 ^ (k - 1)
      | none => leadingDigitFrom x ks

/-- The first digit of the rendering `Number::toString` gives the positive double `x`:
the leading digit of the shortest significand (at most 17 digits) that reads back as `x`. -/
def leadingDigit (x : Nat) : Nat := leadingDigitFrom x ((List.range 17).map fun i => i + 1)

/-- The call `parseInt(x, 10)` on an integer-valued double `x`. The argument is first
rendered as a string. Below `10 ^ 21` in magnitude the rendering is the plain decimal
numeral and the result is `x`; from `10 ^ 21` on the rendering is in exponent form,
`d.ddde+N` or `de+N`, and the parse stops after the first digit `d`. -/
def parseIntNumber (x : Int) : Int :=
  if |x| < 10 ^ 21 then x
  else if x < 0 then -((leadingDigit x.natAbs : Nat) : Int)
  else ((leadingDigit x.natAbs : Nat) : Int)

/-! ## stylesheet.js: the rule evaluator -/

/-- The collaborators `shouldApply` consults: `CustomToggles.toggleActive` and
`currentSubreddit()` (absent on a page outside any subreddit). -/
structure PageEnv where
  toggleActive : String → Bool
  currentSubreddit : Option String

/-- The function `shouldApply(toggle, applyTo, applyList)` of stylesheet.js. `applyList` is
`none` when the option value is not a string. -/
def shouldApply (env : PageEnv) (toggle : Option String) (applyTo : String)
    (applyList : Option String) : Bool :=
  if truthy toggle && !(env.toggleActive (toggle.getD "")) then false
  else if !(truthy env.currentSubreddit) then applyTo != "include"
  else
    let subreddit := toLowerCase (env.currentSubreddit.getD "")
    let applyList : List String :=
      match applyList with
      | some l => splitOn (toLowerCase l) ','
      | none => []
    if applyTo = "exclude" then
      !(applyList.contains subreddit || applyList.contains "all")
    else if applyTo = "include" then
      applyList.contains subreddit || applyList.contains "all"
    else true

/-! ## userTagger.js: the tag store -/

/-- A TagRecord, a value of the `tags` object. A field that is `undefined` is `none`. -/
structure TagRecord where
  tag : Option String := none
  link : Option String := none
  color : Option String := none
  ignore : Option Bool := none
  votes : Option Int := none
  deriving DecidableEq, Repr

/-- The test `_.isEmpty(record)`: the object has no own property. -/
def TagRecord.isEmpty (r : TagRecord) : Bool :=
  r.tag.isNone && r.link.isNone && r.color.isNone && r.ignore.isNone && r.votes.isNone

/-- A JavaScript object keyed by strings (or by node identity), as an association
list in insertion order. -/
def Assoc.get {κ α : Type} [DecidableEq κ] : List (κ × α) → κ → Option α
  | [], _ => none
  | (k', v) :: s, k => if k' = k then some v else Assoc.get s k

/-- Assignment `obj[k] = v`: overwrite in place, or append a new property. -/
def Assoc.set {κ α : Type} [DecidableEq κ] : List (κ × α) → κ → α → List (κ × α)
  | [], k, v => [(k, v)]
  | (k', v') :: s, k, v => if k' = k then (k, v) :: s else (k', v') :: Assoc.set s k v

/-- The statement `delete obj[k]`. -/
def Assoc.delete {κ α : Type} [DecidableEq κ] : List (κ × α) → κ → List (κ × α)
  | [], _ => []
  | (k', v') :: s, k => if k' = k then Assoc.delete s k else (k', v') :: Assoc.delete s k

/-- The module variable `tags`: AuthorKey to TagRecord. -/
abbrev Store := List (String × TagRecord)

/-- Modelled from the spec: the merge of one entry done by `Storage.patch`, which
lives in the environment module. Fields of the patch overwrite, the others stay. -/
def TagRecord.merge (old patch : TagRecord) : TagRecord :=
  { tag := patch.tag <|> old.tag
    link := patch.link <|> old.link
    color := patch.color <|> old.color
    ignore := patch.ignore <|> old.ignore
    votes := patch.votes <|> old.votes }

/-- Modelled from the spec: `Storage.patch('RESmodules.userTagger.tags', { [key]: fields })`
of the environment module, which merges one AuthorKey entry into the persisted object. -/
def Storage.patch (stored : Store) (key : String) (fields : TagRecord) : Store :=
  Assoc.set stored key (((Assoc.get stored key).getD {}).merge fields)

/-- Modelled from the spec: `Storage.deletePath('RESmodules.userTagger.tags', key)`
of the environment module, which removes one AuthorKey entry. -/
def Storage.deletePath (stored : Store) (key : String) : Store :=
  Assoc.delete stored key

/-! ## userTagger.js: options and rendered elements -/

/-- The values of `module.options` the engine reads. -/
structure ModuleOptions where
  showTaggingIcon : Bool := true
  hardIgnore : Bool := false
  trackVoteWeight : Bool := true
  vwNumber : Bool := true
  vwTooltip : Bool := true
  deriving DecidableEq, Repr

/-- The collaborators of the tagger: option values, `NightMode.isNightModeOn()`,
`isPageType`, `loggedInUser()` and the `string.escapeHTML` template tag. -/
structure Host where
  options : ModuleOptions := {}
  nightMode : Bool := false
  isPageType : String → Bool := fun _ => false
  loggedInUser : Option String := none
  escapeHTML : String → String := id

/-- The `a.voteWeight` element: the style properties and attributes `colorUser` writes. -/
structure VoteWeightElem where
  display : Option String := none
  color : Option String := none
  backgroundColor : Option String := none
  textContent : String := "[vw]"
  title : Option String := none
  deriving DecidableEq, Repr

/-- The `a.userTagLink` element. `username` is the attribute set on an editable
link, together with `title`, `href` and the click listener. -/
structure UserTagLink where
  className : String
  text : String
  style : Option String := none
  username : Option String := none
  deriving DecidableEq, Repr

/-- The table `bgToTextColorMap`. -/
def bgToTextColorMap : List (String × String) :=
  [("none", "inherit"), ("aqua", "black"), ("black", "white"), ("blue", "white"),
   ("cornflowerblue", "white"), ("fuchsia", "white"), ("pink", "black"), ("gray", "white"),
   ("green", "white"), ("lime", "black"), ("maroon", "white"), ("navy", "white"),
   ("olive", "white"), ("orange", "white"), ("orangered", "white"), ("purple", "white"),
   ("red", "white"), ("silver", "black"), ("teal", "white"), ("white", "black"),
   ("yellow", "black")]

/-- The style attribute written on a tag link:
`background-color: ${bgColor}; color: ${bgToTextColorMap[color]} !important;`. -/
def tagStyle (color : String) : String :=
  let bgColor := if color = "none" then "transparent" else color
  "background-color: " ++ bgColor ++ "; color: " ++
    (Assoc.get bgToTextColorMap color).getD "undefined" ++ " !important;"

/-! ## userTagger.js: `colorUser` -/

/-- The locals `red`, `green`, `blue` of `colorUser` after the branch on the sign of
`votes`, which `colorUser` has passed through `parseInt` before. The product and the
difference are each rounded to a double. -/
def colorUserRGB (votes : Int) : Int × Int × Int :=
  if votes > 0 then
    (max 0 (roundDouble (255 - roundDouble (8 * votes))), 255,
      max 0 (roundDouble (255 - roundDouble (8 * votes))))
  else if votes < 0 then
    (255, max 0 (roundDouble (255 - |roundDouble (8 * votes)|)),
      max 0 (roundDouble (255 - |roundDouble (8 * votes)|)))
  else (255, 255, 255)

/-- The local `voteString` of `colorUser`: it starts as `'+'`, is emptied in the
negative branch, and then has `votes` appended. -/
def colorUserVoteString (votes : Int) : String :=
  (if votes > 0 then "+" else if votes < 0 then "" else "+") ++ toString votes

/-- The local `rgb` of `colorUser`. -/
def colorUserRgbString (votes : Int) : String :=
  let (red, green, blue) := colorUserRGB votes
  "rgb(" ++ toString red ++ ", " ++ toString green ++ ", " ++ toString blue ++ ")"

/-- The function `colorUser(obj, author, votes)`: the element `obj` (if any) after the call.
Its first statement is `votes = parseInt(votes, 10)`; the callers pass a number. -/
def colorUser (h : Host) (obj : Option VoteWeightElem) (author : String) (votes : Int) :
    Option VoteWeightElem :=
  if h.options.trackVoteWeight then
    let votes := parseIntNumber votes
    let voteString := colorUserVoteString votes
    let rgb := colorUserRgbString votes
    match obj with
    | none => none
    | some o =>
      if votes = 0 then some { o with display := some "none" }
      else
        let o := { o with display := some "inline" }
        let o := if h.nightMode then { o with color := some rgb }
                 else { o with backgroundColor := some rgb }
        let o := if h.options.vwNumber then { o with textContent := "[" ++ voteString ++ "]" }
                 else o
        let o := if h.options.vwTooltip then
                   { o with title := some ("your votes for " ++ h.escapeHTML author ++ ": " ++
                                            h.escapeHTML voteString) }
                 else o
        some o
  else obj

/-! ## userTagger.js: the content tree -/

/-- The element inserted after an author node: the `a.voteWeight` of
`addTrackVoteWeight` (with its leading space text node) or the `span.RESUserTag`
of `addUserTag`, known by the link it wraps. -/
inductive Marker where
  | voteWeight (e : VoteWeightElem)
  | userTag (l : UserTagLink)
  deriving DecidableEq, Repr

/-- Which listener a "show anyway?" link carries: the one of `ignoreComment` or
the one of `ignore`. -/
inductive ShowLink where
  | comment
  | post
  deriving DecidableEq, Repr

/-- The children of a content element: arbitrary markup, known by its
serialisation, or the placeholder text followed by the "show anyway?" link. -/
inductive Content where
  | markup (html : String)
  | placeholder (text : String) (link : ShowLink)
  deriving DecidableEq, Repr

/-- A content element that suppression touches: its children, its class
tokens in order, its `data-original` attribute and `style.display`. -/
structure Elem where
  content : Content
  classList : List String := []
  dataOriginal : Option String := none
  display : Option String := none
  deriving DecidableEq, Repr

/-- Serialisation of a text node inside `innerHTML`. -/
def escapeText (t : String) : String :=
  String.join (t.data.map fun c =>
    if c = '&' then "&amp;" else if c = '<' then "&lt;" else if c = '>' then "&gt;"
    else if c = Char.ofNat 160 then "&nbsp;" else String.singleton c)

/-- The getter `element.innerHTML`. -/
def Elem.innerHTML (e : Elem) : String :=
  match e.content with
  | .markup html => html
  | .placeholder text _ => escapeText text ++ "<a href=\"#\">show anyway?</a>"

/-- The method `classList.add(c)`, and jQuery `addClass(c)`: the token is appended when absent. -/
def addClass (l : List String) (c : String) : List String :=
  if l.contains c then l else l ++ [c]

/-- The jQuery method `removeClass(c)`: every occurrence of the token goes. -/
def removeClass (l : List String) (c : String) : List String :=
  l.filter (fun x => x != c)

/-- An author occurrence node (`thisAuthorObj`). `id` is the node identity, the
key of the WeakMap `appliedAuthorObjs`. -/
structure AuthorObj where
  id : Nat
  href : Option String := none
  dataUser : Option String := none
  innerText : Option String := none
  classList : List String := []
  deriving DecidableEq, Repr

/-- The queries the suppression code runs on the content tree, by node identity:
`obj.parentNode.parentNode.querySelector('.usertext')`,
`thisComment.parentNode.querySelector('a.expand')`, `$(obj).closest('.thing')`,
`thisPost.previousSibling`, and on a thing `find('.md')[0]`, `find('.subject')`,
`is('.was-comment')`, `find('p.title')[0]`. -/
structure Layout where
  usertext : Nat → Option Nat := fun _ => none
  expand : Nat → Option Nat := fun _ => none
  thing : Nat → Option Nat := fun _ => none
  previousSibling : Nat → Option Nat := fun _ => none
  md : Nat → Option Nat := fun _ => none
  subject : Nat → List Nat := fun _ => []
  wasComment : Nat → Bool := fun _ => false
  title : Nat → Option Nat := fun _ => none

/-- The mutable part of the content tree: the keys of `appliedAuthorObjs`, the
markers inserted after each author node (nearest to the node first), the
content elements by identity, and the elements that were sent a synthetic click. -/
structure Dom where
  applied : List Nat := []
  markers : List (Nat × Marker) := []
  elems : List (Nat × Elem) := []
  clicked : List Nat := []
  deriving DecidableEq, Repr

/-- Apply an in-place mutation to the element `id`, when the tree holds it. -/
def Dom.modify (d : Dom) (id : Nat) (f : Elem → Elem) : Dom :=
  match Assoc.get d.elems id with
  | some e => { d with elems := Assoc.set d.elems id (f e) }
  | none => d

/-- A query result that names an element the tree holds. -/
def Dom.find (d : Dom) (q : Option Nat) : Option Nat :=
  q.bind fun id => (Assoc.get d.elems id).map fun _ => id

/-! ## userTagger.js: identity extraction -/

/-- The class `[\w\-]` of `usernameRE`. -/
def isUsernameChar (c : Char) : Bool := c.isAlphanum || c = '_' || c = '-'

/-- The capture group of `usernameRE` after a matched `u/` or `user/`. -/
def usernameCapture (rest : List Char) : Option String :=
  let run := rest.takeWhile isUsernameChar
  if run.isEmpty then none else some (String.mk run)

/-- A match of `usernameRE = /(?:u|user)\/([\w\-]+)/` anchored at the head. -/
def usernameREAt : List Char → Option String
  | 'u' :: '/' :: rest => usernameCapture rest
  | 'u' :: 's' :: 'e' :: 'r' :: '/' :: rest => usernameCapture rest
  | _ => none

/-- The call `href.match(usernameRE)`: capture group 1 of the leftmost match. -/
def usernameREMatch : List Char → Option String
  | [] => none
  | c :: cs =>
    match usernameREAt (c :: cs) with
    | some m => some m
    | none => usernameREMatch cs

/-! ## userTagger.js: decoration -/

/-- The inner function `addUserTag` of `addAuthorTag`. -/
def addUserTag (d : Dom) (thisAuthorObj : AuthorObj) (noEdit : Bool) (thisAuthor : String)
    (color tag : Option String) : Dom :=
  let userTagLink : UserTagLink :=
    { className := if !(truthy tag) then "userTagLink RESUserTagImage" else "userTagLink hasTag"
      text := if truthy tag then tag.getD "" else ""
      style := if truthy color then some (tagStyle (color.getD "")) else none
      username := if !noEdit then some thisAuthor else none }
  { d with markers := (thisAuthorObj.id, Marker.userTag userTagLink) :: d.markers }

/-- The inner function `addTrackVoteWeight` of `addAuthorTag`. -/
def addTrackVoteWeight (h : Host) (d : Dom) (thisAuthorObj : AuthorObj) (thisAuthor : String)
    (votes : Int) : Dom :=
  let userVoteWeight : VoteWeightElem := { textContent := "[vw]" }
  let userVoteWeight := (colorUser h (some userVoteWeight) thisAuthor votes).getD userVoteWeight
  { d with markers := (thisAuthorObj.id, Marker.voteWeight userVoteWeight) :: d.markers }

/-- The function `addAuthorTag(thisAuthorObj, noEdit, thisAuthor, { votes = 0, color, tag } = {})`. -/
def addAuthorTag (h : Host) (d : Dom) (thisAuthorObj : AuthorObj) (noEdit : Bool)
    (thisAuthor : String) (tagObject : Option TagRecord) : Dom :=
  let r := tagObject.getD {}
  let votes := r.votes.getD 0
  let color := r.color
  let tag := r.tag
  if noEdit then
    if truthy tag then addUserTag d thisAuthorObj noEdit thisAuthor color tag else d
  else
    let d := if h.options.trackVoteWeight then addTrackVoteWeight h d thisAuthorObj thisAuthor votes
             else d
    if truthy tag || h.options.showTaggingIcon then
      addUserTag d thisAuthorObj noEdit thisAuthor color tag
    else d

/-! ## userTagger.js: suppression -/

/-- What `ignoreComment` does to the `.usertext` element it found. -/
def ignoreCommentElem (thisAuthor : String) (thisComment : Elem) : Elem :=
  { thisComment with
    dataOriginal := some thisComment.innerHTML
    content := Content.placeholder (thisAuthor ++ " is an ignored user.") ShowLink.comment
    classList := addClass thisComment.classList "ignoredUserComment" }

/-- What `ignore` does to the title (or message body) element it found. -/
def ignorePostElem (thisAuthor : String) (thisPost : Elem) : Elem :=
  { thisPost with
    dataOriginal := some thisPost.innerHTML
    content := Content.placeholder (thisAuthor ++ " is an ignored user. ") ShowLink.post
    classList := ["ignoredUserPost"] }

/-- The click listener of the "show anyway?" link, on the parent of the link:
`$(this).parent().html($(this).parent().attr('data-original')).removeClass(...)`,
followed by `.addClass('md')` for the listener of `ignore`. An element without
the link has nothing to click, and an element without `data-original` makes the
handler throw before it changes anything. -/
def showAnyway (e : Elem) : Elem :=
  match e.content, e.dataOriginal with
  | .placeholder _ .comment, some original =>
    { e with content := Content.markup original
             classList := removeClass e.classList "ignoredUserComment" }
  | .placeholder _ .post, some original =>
    { e with content := Content.markup original
             classList := addClass (removeClass e.classList "ignoredUserPost") "md" }
  | _, _ => e

/-- The function `ignoreComment(thisAuthorObj, thisAuthor)`: the tree after the call and the
comment element returned (`none` for `false`). -/
def ignoreComment (lay : Layout) (d : Dom) (thisAuthorObj : AuthorObj) (thisAuthor : String) :
    Dom × Option Nat :=
  match d.find (lay.usertext thisAuthorObj.id) with
  | some thisComment => (d.modify thisComment (ignoreCommentElem thisAuthor), some thisComment)
  | none => (d, none)

/-- The function `ignore(thisAuthorObj, thisAuthor)`. -/
def ignore (h : Host) (lay : Layout) (d : Dom) (thisAuthorObj : AuthorObj)
    (thisAuthor : String) : Dom :=
  if h.options.hardIgnore then
    if h.isPageType "comments" then
      match ignoreComment lay d thisAuthorObj thisAuthor with
      | (d, some thisComment) =>
        { d with clicked := d.clicked ++ (d.find (lay.expand thisComment)).toList }
      | (d, none) => d
    else
      match d.find (lay.thing thisAuthorObj.id) with
      | some thisPost =>
        let d := d.modify thisPost fun e => { e with display := some "none" }
        match d.find (lay.previousSibling thisPost) with
        | some prev => d.modify prev fun e => { e with display := some "none" }
        | none => d
      | none => d
  else if h.isPageType "comments" then
    (ignoreComment lay d thisAuthorObj thisAuthor).1
  else
    let thisMessage := d.find (lay.thing thisAuthorObj.id)
    let (d, thisPost) :=
      if h.isPageType "inbox" then
        match thisMessage with
        | some m =>
          let d := if !(lay.wasComment m) then
                     (lay.subject m).foldl
                       (fun d s => d.modify s fun e =>
                         { e with content := Content.markup "Ignored message" }) d
                   else d
          (d, d.find (lay.md m))
        | none => (d, none)
      else (d, thisMessage.bind fun m => d.find (lay.title m))
    match thisPost with
    | some p => d.modify p (ignorePostElem thisAuthor)
    | none => d

/-- The read `tags[key]` of `applyTagToAuthor`. The variable `tags` is a plain object, so
besides its own entries the read finds the two properties with a lowercase name that
every object inherits, `constructor` and `__proto__`: a truthy object that has none
of the fields of a record. -/
def readTags (tags : Store) (key : String) : Option TagRecord :=
  match Assoc.get tags key with
  | some r => some r
  | none => if key = "constructor" ∨ key = "__proto__" then some {} else none

/-- The function `applyTagToAuthor(thisAuthorObj, noEdit = false)`, reading the module
variable `tags`. A `null` node is `none`. -/
def applyTagToAuthor (h : Host) (lay : Layout) (tags : Store) (d : Dom)
    (thisAuthorObj : Option AuthorObj) (noEdit : Bool) : Dom :=
  match thisAuthorObj with
  | none => d
  | some obj =>
    if d.applied.contains obj.id then d
    else
      let d := { d with applied := obj.id :: d.applied }
      let found : Option String :=
        if truthy obj.href then usernameREMatch (obj.href.getD "").data
        else if truthy obj.dataUser then obj.dataUser
        else if truthy obj.innerText then obj.innerText
        else some ""
      match found with
      | none => d
      | some name =>
        let thisAuthor := toLowerCase name
        let tagObject := readTags tags thisAuthor
        let d := if h.options.showTaggingIcon || tagObject.isSome then
                   addAuthorTag h d obj noEdit thisAuthor tagObject
                 else d
        if tagObject.isSome && ((tagObject.getD {}).ignore == some true) && !noEdit &&
            obj.classList.contains "author" && !(h.isPageType "profile") then
          ignore h lay d obj thisAuthor
        else d

/-- The function `applyTags` run over successive batches: each call of
`applyTagToAuthor` comes with the value `tags` has at that time. -/
def applyAll (h : Host) (lay : Layout) (d : Dom) :
    List (Store × Option AuthorObj × Bool) → Dom
  | [] => d
  | (tags, obj, noEdit) :: rest => applyAll h lay (applyTagToAuthor h lay tags d obj noEdit) rest

/-- The marker is a `span.RESUserTag`. -/
def Marker.isUserTag : Marker → Bool
  | .userTag _ => true
  | .voteWeight _ => false

/-- The marker is an `a.voteWeight`. -/
def Marker.isVoteWeight : Marker → Bool
  | .voteWeight _ => true
  | .userTag _ => false

/-- How many tag markers follow the author node `n`. -/
def tagMarkerCount (d : Dom) (n : Nat) : Nat :=
  (d.markers.filter fun m => m.1 == n && m.2.isUserTag).length

/-- How many vote-weight indicators follow the author node `n`. -/
def voteWeightCount (d : Dom) (n : Nat) : Nat :=
  (d.markers.filter fun m => m.1 == n && m.2.isVoteWeight).length

/-- The decoration invariant: every author node is followed by at most one tag
marker and at most one vote-weight indicator, and a node that is not a key of
`appliedAuthorObjs` is followed by none. -/
def DecoratedOnce (d : Dom) : Prop :=
  ∀ n, tagMarkerCount d n ≤ 1 ∧ voteWeightCount d n ≤ 1 ∧
    (n ∉ d.applied → tagMarkerCount d n = 0 ∧ voteWeightCount d n = 0)

/-! ## userTagger.js: module state -/

/-- One rendered row of `#userTaggerTable tbody`: the locals `thisUser`, `thisTag`,
`thisVotes`, `thisColor` and whether `thisIgnore` is the "ignored" icon. -/
structure Row where
  user : String
  tag : String
  votes : Int
  color : String
  ignored : Bool
  deriving DecidableEq, Repr

/-- The state the module keeps: the variable `tags`, the persisted object under
`RESmodules.userTagger.tags`, the content tree, the variable `clickedTag` with the
`a.voteWeight` found next to it, whether the dialog shows, the variables
`currentSortMethod` and `isDescending`, the data of `#tagPageControls` with its
progress label, and the rows of the table body. -/
structure State where
  tags : Store := []
  stored : Store := []
  dom : Dom := {}
  clickedTag : Option UserTagLink := none
  clickedVW : Option VoteWeightElem := none
  dialogOpen : Bool := false
  currentSortMethod : Option String := none
  isDescending : Option Bool := none
  page : Int := 1
  pageCount : Int := 1
  progress : String := "1 of 2"
  rows : List Row := []
  deriving DecidableEq, Repr

/-! ## userTagger.js: `handleVoteClick` -/

/-- What `handleVoteClick` reads from the clicked arrow `$this`: its class
tokens, the class tokens of each element of `$this.siblings('.arrow')`, and
`thing.getAuthor()` and `thing.getAuthorElement()` of the enclosing thing. -/
structure VoteClick where
  classes : List String
  siblings : List (List String) := []
  author : Option String := none
  authorElement : Option AuthorObj := none
  deriving DecidableEq, Repr

/-- The lookup `$(thisAuthorObj).nextAll('.voteWeight')[0]`, the author node
being followed by its own markers. -/
def firstVoteWeight : List (Nat × Marker) → Nat → Option VoteWeightElem
  | [], _ => none
  | (m, .voteWeight e) :: rest, n => if m = n then some e else firstVoteWeight rest n
  | (_, .userTag _) :: rest, n => firstVoteWeight rest n

/-- In-place mutation of the element `firstVoteWeight` returns. -/
def setFirstVoteWeight : List (Nat × Marker) → Nat → VoteWeightElem → List (Nat × Marker)
  | [], _, _ => []
  | (m, .voteWeight e) :: rest, n, e' =>
    if m = n then (m, .voteWeight e') :: rest else (m, .voteWeight e) :: setFirstVoteWeight rest n e'
  | (m, .userTag l) :: rest, n, e' => (m, .userTag l) :: setFirstVoteWeight rest n e'

/-- The local `votes` of `handleVoteClick` after the chain of class tests, from
its starting value. Each `votes++` and `votes--` is one addition on doubles. -/
def voteTransition (classes : List String) (siblings : List (List String)) (votes : Int) : Int :=
  let otherHasClass := fun c => siblings.any fun cl => cl.contains c
  if classes.contains "up" then
    let votes := roundDouble (votes + 1)
    if otherHasClass "downmod" then roundDouble (votes + 1) else votes
  else if classes.contains "upmod" then roundDouble (votes - 1)
  else if classes.contains "down" then
    let votes := roundDouble (votes - 1)
    if otherHasClass "upmod" then roundDouble (votes - 1) else votes
  else if classes.contains "downmod" then roundDouble (votes + 1)
  else votes

/-- The expression `parseInt(tagObject.votes, 10) || 0`: the parse of the stored number,
or 0 when the parse is 0 or there is no stored number (`parseInt(undefined, 10)` is `NaN`). -/
def startingVotes (tagObject : TagRecord) : Int :=
  match tagObject.votes with
  | some v => parseIntNumber v
  | none => 0

/-- The function `handleVoteClick($this)`. In `tags[thisAuthor] || {}` an inherited
property stands for a record without fields, as the fresh `{}` does. -/
def handleVoteClick (h : Host) (st : State) (ev : VoteClick) : State :=
  if ev.classes.contains "archived" || !(truthy ev.author) || ev.author == h.loggedInUser then st
  else
    let thisAuthor := toLowerCase (ev.author.getD "")
    let tagObject := (Assoc.get st.tags thisAuthor).getD {}
    let votes := voteTransition ev.classes ev.siblings (startingVotes tagObject)
    let tagObject := { tagObject with votes := some votes }
    let tags := Assoc.set st.tags thisAuthor tagObject
    let stored := Storage.patch st.stored thisAuthor { votes := some votes }
    let dom :=
      match ev.authorElement with
      | none => st.dom
      | some thisAuthorObj =>
        let dom := if (firstVoteWeight st.dom.markers thisAuthorObj.id).isNone then
                     addAuthorTag h st.dom thisAuthorObj false thisAuthor (some tagObject)
                   else st.dom
        match firstVoteWeight dom.markers thisAuthorObj.id with
        | some thisVWobj =>
          match colorUser h (some thisVWobj) thisAuthor votes with
          | some e => { dom with markers := setFirstVoteWeight dom.markers thisAuthorObj.id e }
          | none => dom
        | none => dom
    { st with tags := tags, stored := stored, dom := dom }

/-! ## userTagger.js: `setUserTag` and `ignoreUser` -/

/-- The function `setUserTag(username, tag, color, ignore, link, votes, noclick)`. The callers
pass a string for `tag` and an integer for `votes`, so `tag !== null` holds and
`isNaN(votes)` fails. With `noclick` false the dialog was opened from a link
still in the document. -/
def setUserTag (h : Host) (st : State) (username tag color : String) (ignore : Bool)
    (link : String) (votes : Int) (noclick : Bool) : State :=
  let username := toLowerCase username
  let (tags, clickedTag) :=
    if tag ≠ "" || ignore then
      let tag := if tag = "" then "ignored" else tag
      let r := (Assoc.get st.tags username).getD {}
      let r := { r with tag := some tag }
      let r := { r with link := some link }
      let r := { r with color := some color }
      let r := if ignore then { r with ignore := some true } else { r with ignore := none }
      (Assoc.set st.tags username r,
       if !noclick then
         st.clickedTag.map fun c =>
           { c with className := "userTagLink hasTag", style := some (tagStyle color), text := tag }
       else st.clickedTag)
    else
      let tags :=
        match Assoc.get st.tags username with
        | some r =>
          let r := { r with tag := none }
          let r := { r with color := none }
          let r := { r with link := none }
          let r := if r.tag = some "ignored" then { r with tag := none } else r
          let r := { r with ignore := none }
          Assoc.set st.tags username r
        | none => st.tags
      (tags,
       if !noclick then
         st.clickedTag.map fun c =>
           { c with style := some "background-color: transparent"
                    className := "userTagLink RESUserTagImage", text := "" }
       else st.clickedTag)
  let tags :=
    match Assoc.get tags username with
    | some r => Assoc.set tags username { r with votes := some votes }
    | none => tags
  let clickedVW :=
    if !noclick then
      match st.clickedVW with
      | some thisVW => colorUser h (some thisVW) username votes
      | none => none
    else st.clickedVW
  let isEmpty :=
    match Assoc.get tags username with
    | some r => r.isEmpty
    | none => true
  let (tags, stored) :=
    if isEmpty then
      (Assoc.delete tags username, Storage.deletePath st.stored username)
    else
      (tags, Storage.patch (Storage.deletePath st.stored username) username
               ((Assoc.get tags username).getD {}))
  { st with tags := tags, stored := stored, clickedTag := clickedTag, clickedVW := clickedVW
            dialogOpen := false }

/-- The function `ignoreUser(username, ignore)`. -/
def ignoreUser (h : Host) (st : State) (username : String) (ignore : Bool) : State :=
  let thisName := toLowerCase username
  let thisIgnore := ignore
  let r := (Assoc.get st.tags thisName).getD {}
  let color := r.color.getD "none"
  let link := r.link.getD ""
  let votes := r.votes.getD 0
  let oldTag := r.tag.getD ""
  let tag :=
    if thisIgnore && oldTag = "" then "ignored"
    else if !thisIgnore && oldTag = "ignored" then ""
    else oldTag
  setUserTag h st thisName tag color thisIgnore link votes true

/-! ## userTagger.js: `drawUserTagTable` -/

/-- What `drawUserTagTable` reads from outside the module state:
`$('#tagFilter').val()` and `parseInt(Dashboard.module.options.tagsPerPage.value, 10)`
(`none` for `NaN`). The field `toLowerCase` is the method `String.prototype.toLowerCase`
of the engine as applied to the text of a tag or of a colour, which the user enters
and which need not be ASCII; by default it is the mapping on the ASCII range. -/
structure TableEnv where
  filterType : Option String := some "tagged users"
  tagsPerPage : Option Int := none
  toLowerCase : String → String := RES.toLowerCase

/-- The key is an array index: the canonical decimal form of a number below `2^32 - 1`. -/
def arrayIndex (k : String) : Option Nat :=
  let n := k.data.foldl (fun n c => 10 * n + (c.toNat - 48)) 0
  if toString n = k ∧ n < 4294967295 then some n else none

/-- The order in which `for (const tagIndex in tags)` visits the keys: array
indices in ascending numeric order, then the other keys in insertion order. -/
def forInKeys (tags : Store) : List String :=
  let ks := tags.map Prod.fst
  ((ks.filterMap arrayIndex).insertionSort (fun a b => a ≤ b)).map toString ++
    ks.filter fun k => (arrayIndex k).isNone

/-- The array `taggedUsers` once the `for ... in` loop has filled it. -/
def taggedUsers (env : TableEnv) (tags : Store) : List String :=
  (forInKeys tags).filter fun tagIndex =>
    if env.filterType = some "tagged users" then
      ((Assoc.get tags tagIndex).getD {}).tag.isSome
    else true

/-- A comparator body of the form `(x > y) ? 1 : (y > x) ? -1 : 0`. -/
def compareStrings (x y : String) : Int :=
  if jsGt x y then 1 else if jsGt y x then -1 else 0

/-- The comparator of the `'tag'` case; `lower` is the method `toLowerCase` of the tags. -/
def compareByTag (lower : String → String) (tags : Store) (a b : String) : Int :=
  let tagA := match ((Assoc.get tags a).getD {}).tag with
    | none => "zzzzz"
    | some t => lower t
  let tagB := match ((Assoc.get tags b).getD {}).tag with
    | none => "zzzzz"
    | some t => lower t
  compareStrings tagA tagB

/-- The comparator of the `'ignore'` case. -/
def compareByIgnore (tags : Store) (a b : String) : Int :=
  let tagA := if ((Assoc.get tags a).getD {}).ignore.isNone then "z" else "a"
  let tagB := if ((Assoc.get tags b).getD {}).ignore.isNone then "z" else "a"
  compareStrings tagA tagB

/-- The comparator of the `'color'` case; `lower` is the method `toLowerCase` of the
colours. -/
def compareByColor (lower : String → String) (tags : Store) (a b : String) : Int :=
  let colorA := match ((Assoc.get tags a).getD {}).color with
    | none => "zzzzz"
    | some c => lower c
  let colorB := match ((Assoc.get tags b).getD {}).color with
    | none => "zzzzz"
    | some c => lower c
  compareStrings colorA colorB

/-- The comparator of the `'votes'` case. -/
def compareByVotes (tags : Store) (a b : String) : Int :=
  let tagA := (((Assoc.get tags a).getD {}).votes).getD 0
  let tagB := (((Assoc.get tags b).getD {}).votes).getD 0
  if tagA > tagB then 1
  else if tagA < tagB then -1
  else if jsGt (toLowerCase a) (toLowerCase b) then 1
  else if jsLt (toLowerCase a) (toLowerCase b) then -1
  else 0

/-- The comparator of the `'username'` and default cases. -/
def compareByUsername (a b : String) : Int :=
  compareStrings (toLowerCase a) (toLowerCase b)

/-- The method `Array.prototype.sort(compareFn)`, a stable sort: `a` goes before `b` when
`compareFn(a, b) <= 0`. -/
def jsSort (compareFn : String → String → Int) (l : List String) : List String :=
  l.insertionSort fun a b => compareFn a b ≤ 0

/-- The array `taggedUsers` after the `switch` on `currentSortMethod`; `lower` is the
method `toLowerCase` of tags and colours. -/
def sortUsers (lower : String → String) (tags : Store) (currentSortMethod : Option String)
    (isDescending : Option Bool) (users : List String) : List String :=
  let sorted :=
    if currentSortMethod = some "tag" then jsSort (compareByTag lower tags) users
    else if currentSortMethod = some "ignore" then jsSort (compareByIgnore tags) users
    else if currentSortMethod = some "color" then jsSort (compareByColor lower tags) users
    else if currentSortMethod = some "votes" then jsSort (compareByVotes tags) users
    else jsSort compareByUsername users
  if isDescending = some true then sorted.reverse else sorted

/-- The method `Array.prototype.slice(start, end)`, a negative index counting from the end. -/
def slice {α : Type} (l : List α) (start stop : Int) : List α :=
  let len : Int := l.length
  let k := if start < 0 then max (len + start) 0 else min start len
  let fin := if stop < 0 then max (len + stop) 0 else min stop len
  (l.drop k.toNat).take (fin - k).toNat

/-- The row `forEach` renders for `thisUser`. -/
def renderRow (tags : Store) (thisUser : String) : Row :=
  let r := (Assoc.get tags thisUser).getD {}
  { user := thisUser
    tag := r.tag.getD ""
    votes := r.votes.getD 0
    color := r.color.getD ""
    ignored := r.ignore.isSome }

/-- The value `sortMethod || currentSortMethod`. -/
def nextSortMethod (st : State) (sortMethod : Option String) : Option String :=
  if truthy sortMethod then sortMethod else st.currentSortMethod

/-- The value `(descending === undefined || descending === null) ? isDescending : descending`. -/
def nextDescending (st : State) (descending : Option Bool) : Option Bool :=
  match descending with
  | none => st.isDescending
  | some b => some b

/-- The array `taggedUsers` of `drawUserTagTable(sortMethod, descending)` when
the rows are about to be rendered. -/
def sortedUsers (env : TableEnv) (st : State) (sortMethod : Option String)
    (descending : Option Bool) : List String :=
  sortUsers env.toLowerCase st.tags (nextSortMethod st sortMethod)
    (nextDescending st descending) (taggedUsers env st.tags)

/-- The function `drawUserTagTable(sortMethod, descending)`. `Math.ceil(count / tagsPerPage)`
is computed on integers with floor division. -/
def drawUserTagTable (env : TableEnv) (st : State) (sortMethod : Option String)
    (descending : Option Bool) : State :=
  let currentSortMethod := nextSortMethod st sortMethod
  let isDescending := nextDescending st descending
  let taggedUsers := sortedUsers env st sortMethod descending
  let count : Int := taggedUsers.length
  match (match env.tagsPerPage with
         | some n => if n = 0 then none else some n
         | none => none) with
  | some tagsPerPage =>
    let page := st.page
    let pages := -(Int.fdiv (-count) tagsPerPage)
    let page := min page pages
    let page := max page 1
    let start := tagsPerPage * (page - 1)
    let stop := min count (tagsPerPage * page)
    { st with currentSortMethod := currentSortMethod, isDescending := isDescending
              page := page, pageCount := pages
              progress := toString page ++ " of " ++ toString pages
              rows := (slice taggedUsers start stop).map (renderRow st.tags) }
  | none =>
    { st with currentSortMethod := currentSortMethod, isDescending := isDescending
              rows := (slice taggedUsers 0 count).map (renderRow st.tags) }

/-! ## userTagger.js: the header click handler -/

/-- A header cell `th` of `#userTaggerTable`: its `sort` attribute, its class
tokens, and the class of each indicator `span` it holds. -/
structure HeaderCell where
  sort : Option String
  classList : List String := []
  spans : List String := []
  deriving DecidableEq, Repr

/-- The header row `module.go` writes: `Username` is active and shows `sortAsc`. -/
def initialHeader : List HeaderCell :=
  [{ sort := some "username", classList := ["active"], spans := ["sortAsc"] },
   { sort := some "tag" }, { sort := some "ignore" }, { sort := some "color" },
   { sort := some "votes" }]

/-- The jQuery method `toggleClass(c)`. -/
def toggleClass (l : List String) (c : String) : List String :=
  if l.contains c then removeClass l c else addClass l c

/-- What the handler does to a sibling of the clicked cell:
`$this.siblings().removeClass('active').find('SPAN').remove()`. -/
def headerSibling (c : HeaderCell) : HeaderCell :=
  { c with classList := removeClass c.classList "active", spans := [] }

/-- The header row after a click on cell `i`, the clicked cell becoming `this'`. -/
def headerCells (this' : HeaderCell) : Nat → List HeaderCell → List HeaderCell
  | _, [] => []
  | 0, _ :: cs => this' :: cs.map headerSibling
  | i + 1, c :: cs => headerSibling c :: headerCells this' i cs

/-- The click listener of `#userTaggerTable thead th`, for a click that reaches
cell `i` (`this`). `targetIsCell` tells whether `e.target` is the cell itself;
otherwise it is an indicator `span` inside the cell, which has neither the class
`descending` nor a `sort` attribute. -/
def headerClick (env : TableEnv) (hs : List HeaderCell) (st : State) (i : Nat)
    (targetIsCell : Bool) : List HeaderCell × State :=
  match hs.get? i with
  | none => (hs, st)
  | some this =>
    if this.classList.contains "delete" then (hs, st)
    else
      let classList := if this.classList.contains "active" then
                         toggleClass this.classList "descending"
                       else this.classList
      let classList := addClass classList "active"
      let spans := this.spans.filter fun s => s != "sortAsc" && s != "sortDesc"
      let descending := targetIsCell && classList.contains "descending"
      let spans := spans ++ [if descending then "sortDesc" else "sortAsc"]
      (headerCells { this with classList := classList, spans := spans } i hs,
       drawUserTagTable env st (if targetIsCell then this.sort else none) (some descending))

/-- A sequence of header clicks, each given by the cell and by whether the
target is the cell itself. -/
def headerClicks (env : TableEnv) :
    List HeaderCell × State → List (Nat × Bool) → List HeaderCell × State
  | s, [] => s
  | s, (i, targetIsCell) :: rest =>
    headerClicks env (headerClick env s.1 s.2 i targetIsCell) rest

/-- The key `drawUserTagTable` sorts by: the variable `currentSortMethod`, and the user
name, by the `default` case of the `switch`, while the variable is still `undefined`. -/
def activeKey (st : State) : String :=
  match st.currentSortMethod with
  | some k => k
  | none => "username"

/-- The test `if (isDescending)` of `drawUserTagTable`, on which the sorted array is
reversed. -/
def descendingFlag (st : State) : Bool := st.isDescending == some true

/-- The header row and the module state after the clicks `clicks`, each of them on a
header cell itself, starting from the header row `module.go` writes. -/
def cellClicks (env : TableEnv) (st : State) (clicks : List Nat) : List HeaderCell × State :=
  headerClicks env (initialHeader, st) (clicks.map fun i => (i, true))

/-- The header row agrees with the module variables: the cells carry the keys
`module.go` gave them and none is a `delete` cell, the cell with the class `active`
is the one whose key `drawUserTagTable` sorts by, and that cell carries the class
`descending` exactly when the sorted array is reversed. -/
def HeaderSync (hs : List HeaderCell) (st : State) : Prop :=
  hs.map HeaderCell.sort = initialHeader.map HeaderCell.sort ∧
  ∀ i c, hs.get? i = some c →
    c.classList.contains "delete" = false ∧
    (c.classList.contains "active" = true ↔ c.sort = some (activeKey st)) ∧
    (c.classList.contains "active" = true →
      c.classList.contains "descending" = descendingFlag st)

/-! ## stylesheet.js: `loadStylesheets` -/

/-- The class `\w`. -/
def isWordChar (c : Char) : Bool := c.isAlphanum || c = '_'

/-- The tail `([\w_]+)\/?$` of `subredditNameRegexp`: the capture group. -/
def subredditNameBody (body : List Char) : Option String :=
  let run := body.takeWhile isWordChar
  let rest := body.dropWhile isWordChar
  if !run.isEmpty && (rest = [] || rest = ['/']) then some (String.mk run) else none

/-- Capture group 1 of `subredditNameRegexp = /^(?:\/?r\/)?([\w_]+)\/?$/` on `url`,
when it matches: the optional prefix is tried first, then skipped. -/
def subredditNameMatch (url : List Char) : Option String :=
  let withPrefix :=
    match url with
    | '/' :: 'r' :: '/' :: body => subredditNameBody body
    | 'r' :: '/' :: body => subredditNameBody body
    | _ => none
  match withPrefix with
  | some name => some name
  | none => subredditNameBody url

/-- The part `\/\w+` of `urlRegexp`, anchored at the head. -/
def urlPathHead : List Char → Bool
  | '/' :: c :: _ => isWordChar c
  | _ => false

/-- The part `[\w\.]+` of `urlRegexp` followed by `\/\w+`. -/
def urlHostThenPath (s : List Char) : Bool :=
  let host := s.takeWhile fun c => isWordChar c || c = '.'
  !host.isEmpty && urlPathHead (s.dropWhile fun c => isWordChar c || c = '.')

/-- The test `urlRegexp.test(url)` for `urlRegexp = /^(?:https?:\/\/[\w\.]+)?\/\w+/`. -/
def urlRegexpTest (url : List Char) : Bool :=
  let withHost :=
    match url with
    | 'h' :: 't' :: 't' :: 'p' :: 's' :: ':' :: '/' :: '/' :: rest => urlHostThenPath rest
    | 'h' :: 't' :: 't' :: 'p' :: ':' :: '/' :: '/' :: rest => urlHostThenPath rest
    | _ => false
  withHost || urlPathHead url

/-- A row of `module.options.loadStylesheets.value`: `row[0]` the reddit or url,
`row[1]` the scope mode, `row[2]` the scope list, `row[3]` the toggle name. -/
structure StylesheetRow where
  url : String
  applyTo : String := "everywhere"
  applyList : Option String := none
  toggle : Option String := none
  deriving DecidableEq, Repr

/-- The callback of `map` in `sanitizeStylesheetUrls`; `none` is `undefined`. -/
def sanitizeStylesheetUrl (url : String) : Option String :=
  match subredditNameMatch url.data with
  | some name => some ("/r/" ++ name ++ "/stylesheet.css")
  | none => if urlRegexpTest url.data then some url else none

/-- The function `sanitizeStylesheetUrls(stylesheetRows)`. -/
def sanitizeStylesheetUrls (stylesheetRows : List StylesheetRow) : List String :=
  (stylesheetRows.map fun row => sanitizeStylesheetUrl row.url).filterMap fun x =>
    if truthy x then x else none

/-- The function `findStylesheetElement(url)` on the `link[rel=stylesheet]` elements of the
document, each known by its `href` attribute: the matching elements. -/
def findStylesheetElement (links : List String) (url : String) : List String :=
  if url = "" then [] else links.filter fun href => url = href

/-- The function `loadStylesheets()`: the `href` of the `link[rel=stylesheet]` elements of
the document after the call, `links` being those before it. The created elements
are appended, then every element found for a url of `remove` is removed. -/
def loadStylesheets (env : PageEnv) (rows : List StylesheetRow) (links : List String) :
    List String :=
  let remove := sanitizeStylesheetUrls
    (rows.filter fun row => !(shouldApply env row.toggle row.applyTo row.applyList))
  let add := (sanitizeStylesheetUrls
    (rows.filter fun row => shouldApply env row.toggle row.applyTo row.applyList)).filter
      fun url => !(remove.contains url)
  let addElements := add.filter fun url => (findStylesheetElement links url).length = 0
  let removeElements := remove.map fun url => findStylesheetElement links url
  (links.filter fun href => !(removeElements.any fun found => found.contains href)) ++ addElements

/-! ## Lemmas on the primitives -/

theorem charToLower_idem (c : Char) : c.toLower.toLower = c.toLower := by
  unfold Char.toLower
  by_cases hc : c.toNat ≥ 65 ∧ c.toNat ≤ 90
  · simp only [hc, and_self, if_true]
    obtain ⟨h1, h2⟩ := hc
    have hv : (Char.ofNat (c.toNat + 32)).toNat = c.toNat + 32 := by
      generalize c.toNat = n at h1 h2
      interval_cases n <;> rfl
    rw [hv]
    have : ¬ (c.toNat + 32 ≥ 65 ∧ c.toNat + 32 ≤ 90) := by omega
    simp only [this, if_false]
  · simp only [hc, if_false]

theorem toLowerCase_idem (s : String) : toLowerCase (toLowerCase s) = toLowerCase s := by
  unfold toLowerCase
  simp only [List.map_map]
  congr 1
  apply List.map_congr_left
  intro c _
  exact charToLower_idem c

theorem Assoc.get_set_self {κ α : Type} [DecidableEq κ] (s : List (κ × α)) (k : κ) (v : α) :
    Assoc.get (Assoc.set s k v) k = some v := by
  induction s with
  | nil => simp [Assoc.set, Assoc.get]
  | cons p s ih =>
    obtain ⟨k', v'⟩ := p
    by_cases hk : k' = k
    · simp [Assoc.set, Assoc.get, hk]
    · simp [Assoc.set, Assoc.get, hk, ih]

theorem Assoc.get_set_other {κ α : Type} [DecidableEq κ] (s : List (κ × α)) (k j : κ) (v : α)
    (hj : j ≠ k) : Assoc.get (Assoc.set s k v) j = Assoc.get s j := by
  induction s with
  | nil => simp [Assoc.set, Assoc.get, Ne.symm hj]
  | cons p s ih =>
    obtain ⟨k', v'⟩ := p
    by_cases hk : k' = k
    · subst hk
      simp [Assoc.set, Assoc.get, Ne.symm hj]
    · by_cases hk' : k' = j
      · subst hk'
        simp [Assoc.set, Assoc.get, hk]
      · simp [Assoc.set, Assoc.get, hk, hk', ih]

theorem Assoc.get_delete_self {κ α : Type} [DecidableEq κ] (s : List (κ × α)) (k : κ) :
    Assoc.get (Assoc.delete s k) k = none := by
  induction s with
  | nil => simp [Assoc.delete, Assoc.get]
  | cons p s ih =>
    obtain ⟨k', v'⟩ := p
    by_cases hk : k' = k
    · simp [Assoc.delete, hk, ih]
    · simp [Assoc.delete, Assoc.get, hk, ih]

theorem Assoc.get_delete_other {κ α : Type} [DecidableEq κ] (s : List (κ × α)) (k j : κ)
    (hj : j ≠ k) : Assoc.get (Assoc.delete s k) j = Assoc.get s j := by
  induction s with
  | nil => simp [Assoc.delete, Assoc.get]
  | cons p s ih =>
    obtain ⟨k', v'⟩ := p
    by_cases hk : k' = k
    · subst hk
      simp [Assoc.delete, Assoc.get, Ne.symm hj, ih]
    · by_cases hk' : k' = j
      · subst hk'
        simp [Assoc.delete, Assoc.get, hk]
      · simp [Assoc.delete, Assoc.get, hk, hk', ih]

/-! ## Arithmetic on doubles -/

theorem roundDoubleNat_of_le (n : Nat) (h : n ≤ 2 ^ 53) : roundDoubleNat n = n := by
  unfold roundDoubleNat
  rw [if_pos h]

theorem roundDouble_of_abs_le (z : Int) (h : |z| ≤ 2 ^ 53) : roundDouble z = z := by
  have hn : z.natAbs ≤ 2 ^ 53 := by
    have := abs_le.mp h
    omega
  unfold roundDouble
  rw [roundDoubleNat_of_le _ hn]
  split_ifs with hz <;> omega

theorem bitLength_le_log (n : Nat) (hn : n ≠ 0) : bitLength n ≤ Nat.log 2 n + 1 := by
  unfold bitLength
  rw [if_neg hn]
  exact Nat.toDigitsCore_length 2 (by decide) (n + 1) n (Nat.log 2 n + 1)
    (Nat.lt_pow_succ_log_self (by decide) n) (Nat.succ_pos _)

theorem roundDoubleNat_large (n : Nat) (h : 2 ^ 53 < n) : 2 ^ 52 ≤ roundDoubleNat n := by
  have hn : n ≠ 0 := by
    intro h0
    rw [h0] at h
    exact absurd h (by decide)
  have hlog : 53 ≤ Nat.log 2 n := Nat.le_log_of_pow_le (by decide) (le_of_lt h)
  have hb := bitLength_le_log n hn
  have hpow : 2 ^ (bitLength n - 53 + 52) ≤ n :=
    le_trans (Nat.pow_le_pow_right (by decide) (by omega)) (Nat.pow_log_le_self 2 hn)
  have hq : 2 ^ 52 ≤ n / 2 ^ (bitLength n - 53) := by
    rw [Nat.le_div_iff_mul_le (by positivity)]
    rw [← pow_add, add_comm]
    exact hpow
  unfold roundDoubleNat
  rw [if_neg (not_le.mpr h)]
  simp only []
  have hone : 1 ≤ 2 ^ (bitLength n - 53) := Nat.one_le_two_pow
  split_ifs
  · calc 2 ^ 52 ≤ n / 2 ^ (bitLength n - 53) + 1 := by omega
      _ ≤ (n / 2 ^ (bitLength n - 53) + 1) * 2 ^ (bitLength n - 53) := Nat.le_mul_of_pos_right _ hone
  · calc 2 ^ 52 ≤ n / 2 ^ (bitLength n - 53) := hq
      _ ≤ (n / 2 ^ (bitLength n - 53)) * 2 ^ (bitLength n - 53) := Nat.le_mul_of_pos_right _ hone

theorem roundDouble_nonpos (z : Int) (h : z ≤ 0) : roundDouble z ≤ 0 := by
  unfold roundDouble
  split_ifs with hz
  · omega
  · have h0 : z = 0 := by omega
    subst h0
    decide

theorem roundDouble_ge (z : Int) (h : 256 ≤ z) : 256 ≤ roundDouble z := by
  by_cases hz : z ≤ 2 ^ 53
  · rw [roundDouble_of_abs_le z (abs_le.mpr ⟨by omega, hz⟩)]
    exact h
  · have hn : 2 ^ 53 < z.natAbs := by omega
    have := roundDoubleNat_large _ hn
    unfold roundDouble
    rw [if_neg (by omega)]
    have h52 : (256 : Int) ≤ ((2 ^ 52 : Nat) : Int) := by decide
    exact le_trans h52 (by exact_mod_cast this)

theorem abs_roundDouble (z : Int) : |roundDouble z| = roundDouble |z| := by
  unfold roundDouble
  have habs : ¬ |z| < 0 := not_lt.mpr (abs_nonneg z)
  rw [if_neg habs, Int.natAbs_abs]
  split_ifs with hz
  · rw [abs_neg]
    exact abs_of_nonneg (Int.ofNat_nonneg _)
  · exact abs_of_nonneg (Int.ofNat_nonneg _)

theorem dim_exact (z : Int) (hz : 0 ≤ z) :
    max 0 (roundDouble (255 - roundDouble z)) = max 0 (255 - z) := by
  by_cases h : z ≤ 255
  · rw [roundDouble_of_abs_le z (abs_le.mpr ⟨by omega, by omega⟩),
      roundDouble_of_abs_le (255 - z) (abs_le.mpr ⟨by omega, by omega⟩)]
  · have h1 := roundDouble_ge z (by omega)
    have h2 := roundDouble_nonpos (255 - roundDouble z) (by omega)
    rw [max_eq_left h2, max_eq_left (by omega)]

theorem parseIntNumber_of_abs_lt (x : Int) (h : |x| < 10 ^ 21) : parseIntNumber x = x := by
  unfold parseIntNumber
  rw [if_pos h]

theorem startingVotes_of_abs_lt (r : TagRecord) (h : |r.votes.getD 0| < 10 ^ 21) :
    startingVotes r = r.votes.getD 0 := by
  unfold startingVotes
  cases hv : r.votes with
  | none => rfl
  | some v =>
    rw [hv] at h
    exact parseIntNumber_of_abs_lt v h

/-! ## The vote transition table -/

theorem handleVoteClick_not_skipped (h : Host) (st : State) (ev : VoteClick) (a : String)
    (hauthor : ev.author = some a) (ha : a ≠ "") (harch : ev.classes.contains "archived" = false)
    (hself : h.loggedInUser ≠ some a) :
    (handleVoteClick h st ev).tags =
        Assoc.set st.tags (toLowerCase a)
          { (Assoc.get st.tags (toLowerCase a)).getD {} with
            votes := some (voteTransition ev.classes ev.siblings
              (startingVotes ((Assoc.get st.tags (toLowerCase a)).getD {}))) } ∧
      (handleVoteClick h st ev).stored =
        Storage.patch st.stored (toLowerCase a)
          { votes := some (voteTransition ev.classes ev.siblings
              (startingVotes ((Assoc.get st.tags (toLowerCase a)).getD {}))) } := by
  have hne : (some a == h.loggedInUser) = false := by
    cases hl : h.loggedInUser with
    | none => rfl
    | some b =>
      have hab : a ≠ b := fun hab => hself (by rw [hl, hab])
      simpa using hab
  have harch' : "archived" ∉ ev.classes := by simpa using harch
  simp [handleVoteClick, hauthor, harch', truthy, ha, hne]

theorem voteTransition_shift (classes : List String) (siblings : List (List String)) (n : Int)
    (hn : |n| ≤ 2 ^ 53 - 2) :
    voteTransition classes siblings n = n + voteTransition classes siblings 0 := by
  obtain ⟨hl, hu⟩ := abs_le.mp hn
  have e1 : roundDouble (n + 1) = n + 1 :=
    roundDouble_of_abs_le _ (abs_le.mpr ⟨by omega, by omega⟩)
  have e2 : roundDouble (n + 1 + 1) = n + 1 + 1 :=
    roundDouble_of_abs_le _ (abs_le.mpr ⟨by omega, by omega⟩)
  have e3 : roundDouble (n - 1) = n - 1 :=
    roundDouble_of_abs_le _ (abs_le.mpr ⟨by omega, by omega⟩)
  have e4 : roundDouble (n - 1 - 1) = n - 1 - 1 :=
    roundDouble_of_abs_le _ (abs_le.mpr ⟨by omega, by omega⟩)
  have z1 : roundDouble (0 + 1) = 1 := by decide
  have z2 : roundDouble (1 + 1) = 2 := by decide
  have z3 : roundDouble (0 - 1) = -1 := by decide
  have z4 : roundDouble (-1 - 1) = -2 := by decide
  unfold voteTransition
  simp only [e1, e2, e3, e4, z1, z2, z3, z4]
  split_ifs <;> omega

/-- C1: for a starting vote weight `n` with `|n| ≤ 2 ^ 53 - 2`, a vote click that
is not skipped stores `votes = n + D` for the author, in memory and in the
persisted entry, where `D` is +2 for a clicked neutral up arrow whose sibling is
downvoted, +1 for a neutral up arrow otherwise, -1 for an active up arrow, -2
for a neutral down arrow whose sibling is upvoted, -1 for a neutral down arrow
otherwise, and +1 for an active down arrow. -/
theorem handleVoteClick_votes (h : Host) (st : State) (ev : VoteClick) (a : String) (n : Int)
    (hauthor : ev.author = some a) (ha : a ≠ "") (harch : ev.classes.contains "archived" = false)
    (hself : h.loggedInUser ≠ some a)
    (hn : ((Assoc.get st.tags (toLowerCase a)).getD {}).votes.getD 0 = n)
    (hrange : |n| ≤ 2 ^ 53 - 2) :
    ∃ D : Int,
      (Assoc.get (handleVoteClick h st ev).tags (toLowerCase a)).bind TagRecord.votes
        = some (n + D) ∧
      (Assoc.get (handleVoteClick h st ev).stored (toLowerCase a)).bind TagRecord.votes
        = some (n + D) ∧
      (ev.classes.contains "up" = true →
        ev.siblings.any (fun cl => cl.contains "downmod") = true → D = 2) ∧
      (ev.classes.contains "up" = true →
        ev.siblings.any (fun cl => cl.contains "downmod") = false → D = 1) ∧
      (ev.classes.contains "up" = false → ev.classes.contains "upmod" = true → D = -1) ∧
      (ev.classes.contains "up" = false → ev.classes.contains "upmod" = false →
        ev.classes.contains "down" = true →
        ev.siblings.any (fun cl => cl.contains "upmod") = true → D = -2) ∧
      (ev.classes.contains "up" = false → ev.classes.contains "upmod" = false →
        ev.classes.contains "down" = true →
        ev.siblings.any (fun cl => cl.contains "upmod") = false → D = -1) ∧
      (ev.classes.contains "up" = false → ev.classes.contains "upmod" = false →
        ev.classes.contains "down" = false → ev.classes.contains "downmod" = true → D = 1) := by
  obtain ⟨ht, hs⟩ := handleVoteClick_not_skipped h st ev a hauthor ha harch hself
  have hstart : startingVotes ((Assoc.get st.tags (toLowerCase a)).getD {}) = n := by
    rw [startingVotes_of_abs_lt, hn]
    rw [hn]
    exact lt_of_le_of_lt hrange (by decide)
  refine ⟨voteTransition ev.classes ev.siblings 0, ?_, ?_, ?_, ?_, ?_, ?_, ?_, ?_⟩
  · rw [ht, Assoc.get_set_self, hstart, voteTransition_shift _ _ _ hrange]
    rfl
  · rw [hs, Storage.patch, Assoc.get_set_self, hstart, voteTransition_shift _ _ _ hrange]
    rfl
  · intro h1 h2
    simp only [voteTransition, h1, h2, if_true, Bool.false_eq_true, if_false]
    decide
  · intro h1 h2
    simp only [voteTransition, h1, h2, if_true, Bool.false_eq_true, if_false]
    decide
  · intro h1 h2
    simp only [voteTransition, h1, h2, if_true, Bool.false_eq_true, if_false]
    decide
  · intro h1 h2 h3 h4
    simp only [voteTransition, h1, h2, h3, h4, if_true, Bool.false_eq_true, if_false]
    decide
  · intro h1 h2 h3 h4
    simp only [voteTransition, h1, h2, h3, h4, if_true, Bool.false_eq_true, if_false]
    decide
  · intro h1 h2 h3 h4
    simp only [voteTransition, h1, h2, h3, h4, if_true, Bool.false_eq_true, if_false]
    decide

/-- Witness for C1: starting at 3, a click on a neutral down arrow whose sibling
is upvoted stores 1. -/
theorem handleVoteClick_votes_witness :
    (Assoc.get (handleVoteClick {} { tags := [("bob", { tag := some "pal", votes := some 3 })] }
        { classes := ["arrow", "down"], siblings := [["arrow", "upmod"]],
          author := some "Bob" }).tags "bob").bind TagRecord.votes = some 1 := by
  obtain ⟨D, h1, _, _, _, _, h6, _, _⟩ :=
    handleVoteClick_votes {} { tags := [("bob", { tag := some "pal", votes := some 3 })] }
      { classes := ["arrow", "down"], siblings := [["arrow", "upmod"]], author := some "Bob" }
      "Bob" 3 rfl (by decide) (by decide) (by decide) (by decide) (by decide)
  have hD : D = -2 := h6 (by decide) (by decide) (by decide) (by decide)
  subst hD
  exact h1

/-- Counterexample for C1: a vote weight is a double. Starting at `2 ^ 53`, a click on
a neutral up arrow with a neutral sibling stores `2 ^ 53` again, not `2 ^ 53 + 1`; and
starting at `10 ^ 21`, whose rendering `1e+21` parses as 1, the same click stores 2. -/
theorem handleVoteClick_votes_rounding :
    (Assoc.get (handleVoteClick {} { tags := [("bob", { votes := some (2 ^ 53) })] }
        { classes := ["arrow", "up"], siblings := [["arrow", "down"]],
          author := some "Bob" }).tags "bob").bind TagRecord.votes = some (2 ^ 53) ∧
    (2 ^ 53 : Int) ≠ 2 ^ 53 + 1 ∧
    (Assoc.get (handleVoteClick {} { tags := [("bob", { votes := some (10 ^ 21) })] }
        { classes := ["arrow", "up"], siblings := [["arrow", "down"]],
          author := some "Bob" }).tags "bob").bind TagRecord.votes = some 2 := by
  decide

/-! ## The rule evaluator -/

/-- C2: with an active place `p`, `shouldApply` returns true exactly when the
toggle is absent or active and: for mode `include`, the lowercased place is an
entry of the lowercased comma-separated list or the wildcard `all` is; for mode
`exclude`, neither is; for any other mode, always. -/
theorem shouldApply_active_place (toggleActive : String → Bool) (p L mode : String)
    (toggle : Option String) (hp : p ≠ "") :
    shouldApply ⟨toggleActive, some p⟩ toggle mode (some L) = true ↔
      (truthy toggle = false ∨ toggleActive (toggle.getD "") = true) ∧
      (mode = "include" →
        toLowerCase p ∈ splitOn (toLowerCase L) ',' ∨ "all" ∈ splitOn (toLowerCase L) ',') ∧
      (mode = "exclude" →
        toLowerCase p ∉ splitOn (toLowerCase L) ',' ∧ "all" ∉ splitOn (toLowerCase L) ',') := by
  by_cases ht : truthy toggle = true <;> by_cases ha : toggleActive (toggle.getD "") = true <;>
    by_cases hi : mode = "include" <;> by_cases he : mode = "exclude" <;>
    simp_all [shouldApply, truthy]

/-- Witness for C2: mode `exclude` with the list `foo` gives true on place `bar`. -/
theorem shouldApply_active_place_witness :
    shouldApply ⟨fun _ => false, some "bar"⟩ none "exclude" (some "foo") = true :=
  (shouldApply_active_place (fun _ => false) "bar" "foo" "exclude" none (by decide)).2
    ⟨Or.inl rfl, by decide, fun _ => by decide⟩

/-- C3: without an active place, `shouldApply` returns false when a toggle is
supplied and inactive, and otherwise returns true iff the mode is not
`include`, whatever the scope list is. -/
theorem shouldApply_no_place (toggleActive : String → Bool) (mode : String)
    (toggle applyList : Option String) :
    shouldApply ⟨toggleActive, none⟩ toggle mode applyList =
      (if truthy toggle = true ∧ toggleActive (toggle.getD "") = false then false
       else decide (mode ≠ "include")) ∧
    shouldApply ⟨toggleActive, some ""⟩ toggle mode applyList =
      (if truthy toggle = true ∧ toggleActive (toggle.getD "") = false then false
       else decide (mode ≠ "include")) := by
  by_cases ht : truthy toggle = true <;> by_cases ha : toggleActive (toggle.getD "") = true <;>
    by_cases hi : mode = "include" <;> simp_all [shouldApply, truthy]

/-! ## `setUserTag` and `ignoreUser` on the in-memory store -/

theorem setUserTag_get_of_label (h : Host) (st : State) (u tag color link : String)
    (ignore noclick : Bool) (votes : Int) (hl : tag ≠ "" ∨ ignore = true) :
    Assoc.get (setUserTag h st u tag color ignore link votes noclick).tags (toLowerCase u) =
      some { tag := some (if tag = "" then "ignored" else tag)
             link := some link
             color := some color
             ignore := if ignore = true then some true else none
             votes := some votes } := by
  have hc : (decide (tag ≠ "") || ignore) = true := by
    rcases hl with hl | hl
    · simp [hl]
    · simp [hl]
  unfold setUserTag
  simp only [hc, if_true, Assoc.get_set_self]
  cases ignore <;> simp [TagRecord.isEmpty, Assoc.get_set_self]

theorem setUserTag_get_of_clear (h : Host) (st : State) (u color link : String)
    (noclick : Bool) (votes : Int) :
    Assoc.get (setUserTag h st u "" color false link votes noclick).tags (toLowerCase u) =
      (Assoc.get st.tags (toLowerCase u)).map fun _ => ({ votes := some votes } : TagRecord) := by
  unfold setUserTag
  cases hr : Assoc.get st.tags (toLowerCase u) with
  | none => simp [hr, Assoc.get_delete_self]
  | some r => simp [hr, Assoc.get_set_self, TagRecord.isEmpty]

theorem ignoreUser_unfold (h : Host) (st : State) (u : String) (ignore : Bool) :
    ignoreUser h st u ignore =
      setUserTag h st (toLowerCase u)
        (if (ignore && ((Assoc.get st.tags (toLowerCase u)).getD {}).tag.getD "" = "") = true then
           "ignored"
         else if (!ignore && ((Assoc.get st.tags (toLowerCase u)).getD {}).tag.getD "" = "ignored")
             = true then ""
         else ((Assoc.get st.tags (toLowerCase u)).getD {}).tag.getD "")
        (((Assoc.get st.tags (toLowerCase u)).getD {}).color.getD "none") ignore
        (((Assoc.get st.tags (toLowerCase u)).getD {}).link.getD "")
        (((Assoc.get st.tags (toLowerCase u)).getD {}).votes.getD 0) true := rfl

/-- C4, evaluated: saving an empty label with the ignore box unchecked, for a user
whose record holds a tag and a vote weight of 0, leaves the key in the store with
the record `{ votes: 0 }`; and so does `ignoreUser(u, true)` followed by
`ignoreUser(u, false)` on an empty store. -/
theorem setUserTag_keeps_votes_only_record :
    Assoc.get (setUserTag {}
        { tags := [("bob", { tag := some "pal", link := some "", color := some "none",
                             votes := some 0 })]
          clickedTag := some { className := "userTagLink hasTag", text := "pal" } }
        "bob" "" "none" false "" 0 false).tags "bob" = some { votes := some 0 } ∧
      (ignoreUser {} (ignoreUser {} {} "dave" true) "dave" false).tags =
        [("dave", { votes := some 0 })] := by
  decide

/-- C5, counterexample: a label that reads `ignored` does not survive the two calls. -/
theorem ignoreUser_roundtrip_drops_ignored_label :
    (Assoc.get ([("dave", { tag := some "ignored", link := some "", color := some "none",
                            votes := some 0 })] : Store) "dave").bind TagRecord.tag
        = some "ignored" ∧
      (Assoc.get (ignoreUser {} (ignoreUser {}
          { tags := [("dave", { tag := some "ignored", link := some "", color := some "none",
                                votes := some 0 })] } "dave" true) "dave" false).tags
        "dave").bind TagRecord.tag = none := by
  decide

/-- C5, amended: `ignoreUser(u, true)` followed by `ignoreUser(u, false)` leaves
the tag label of `u` as it was, for every earlier non-empty label other than the
sentinel `ignored`; and for a user without a record before, no tag label and no
ignore flag are left. -/
theorem ignoreUser_roundtrip (h : Host) (st : State) (u : String) :
    (∀ t : String, (Assoc.get st.tags (toLowerCase u)).bind TagRecord.tag = some t →
      t ≠ "" → t ≠ "ignored" →
      (Assoc.get (ignoreUser h (ignoreUser h st u true) u false).tags
        (toLowerCase u)).bind TagRecord.tag = some t) ∧
    (Assoc.get st.tags (toLowerCase u) = none →
      (Assoc.get (ignoreUser h (ignoreUser h st u true) u false).tags
          (toLowerCase u)).bind TagRecord.tag = none ∧
        (Assoc.get (ignoreUser h (ignoreUser h st u true) u false).tags
          (toLowerCase u)).bind TagRecord.ignore = none) := by
  have hkey := toLowerCase_idem u
  constructor
  · intro t ht hne hsent
    cases hr : Assoc.get st.tags (toLowerCase u) with
    | none => simp [hr] at ht
    | some r =>
      have hrt : r.tag = some t := by simpa [hr] using ht
      have h1 : Assoc.get (ignoreUser h st u true).tags (toLowerCase u) =
          some { tag := some t, link := some (r.link.getD ""), color := some (r.color.getD "none")
                 ignore := some true, votes := some (r.votes.getD 0) } := by
        have := setUserTag_get_of_label h st (toLowerCase u) t (r.color.getD "none")
          (r.link.getD "") true true (r.votes.getD 0) (Or.inl hne)
        rw [hkey] at this
        simpa [ignoreUser, hr, hrt, hne] using this
      have h2 := setUserTag_get_of_label h (ignoreUser h st u true) (toLowerCase u) t
        (r.color.getD "none") (r.link.getD "") false true (r.votes.getD 0) (Or.inl hne)
      rw [hkey] at h2
      have h3 : ignoreUser h (ignoreUser h st u true) u false =
          setUserTag h (ignoreUser h st u true) (toLowerCase u) t (r.color.getD "none")
            false (r.link.getD "") (r.votes.getD 0) true := by
        rw [ignoreUser_unfold h (ignoreUser h st u true) u false]
        simp [h1, hsent]
      rw [h3, h2]
      simp [hne]
  · intro hr
    have h1 : Assoc.get (ignoreUser h st u true).tags (toLowerCase u) =
        some { tag := some "ignored", link := some "", color := some "none"
               ignore := some true, votes := some 0 } := by
      have := setUserTag_get_of_label h st (toLowerCase u) "ignored" "none" "" true true 0
        (Or.inr rfl)
      rw [hkey] at this
      simpa [ignoreUser, hr] using this
    have h3 : ignoreUser h (ignoreUser h st u true) u false =
        setUserTag h (ignoreUser h st u true) (toLowerCase u) "" "none" false "" 0 true := by
      rw [ignoreUser_unfold h (ignoreUser h st u true) u false]
      simp [h1]
    have h2 := setUserTag_get_of_clear h (ignoreUser h st u true) (toLowerCase u) "none" "" true 0
    rw [hkey] at h2
    rw [h3, h2, h1]
    simp

/-- Witness for C5: the label `pal` of `Dave` survives the two calls. -/
theorem ignoreUser_roundtrip_witness :
    (Assoc.get (ignoreUser {} (ignoreUser {}
        { tags := [("dave", { tag := some "pal", votes := some 4 })] } "Dave" true)
        "Dave" false).tags (toLowerCase "Dave")).bind TagRecord.tag = some "pal" :=
  (ignoreUser_roundtrip {} { tags := [("dave", { tag := some "pal", votes := some 4 })] }
    "Dave").1 "pal" (by decide) (by decide) (by decide)

/-! ## The vote weight indicator -/

theorem colorUserRGB_exact (votes : Int) :
    colorUserRGB votes =
      if votes > 0 then (max 0 (255 - 8 * votes), 255, max 0 (255 - 8 * votes))
      else if votes < 0 then (255, max 0 (255 - |8 * votes|), max 0 (255 - |8 * votes|))
      else (255, 255, 255) := by
  unfold colorUserRGB
  split_ifs with h1 h2
  · rw [dim_exact (8 * votes) (by omega)]
  · rw [abs_roundDouble, dim_exact |8 * votes| (abs_nonneg _)]
  · rfl

theorem colorUserRGB_range (votes : Int) :
    (0 ≤ (colorUserRGB votes).1 ∧ (colorUserRGB votes).1 ≤ 255) ∧
    (0 ≤ (colorUserRGB votes).2.1 ∧ (colorUserRGB votes).2.1 ≤ 255) ∧
    (0 ≤ (colorUserRGB votes).2.2 ∧ (colorUserRGB votes).2.2 ≤ 255) := by
  rw [colorUserRGB_exact]
  split_ifs with h1 h2
  · refine ⟨⟨le_max_left _ _, max_le (by norm_num) (by omega)⟩, by norm_num,
      ⟨le_max_left _ _, max_le (by norm_num) (by omega)⟩⟩
  · have habs : 0 ≤ |8 * votes| := abs_nonneg _
    refine ⟨by norm_num, ⟨le_max_left _ _, max_le (by norm_num) (by omega)⟩,
      ⟨le_max_left _ _, max_le (by norm_num) (by omega)⟩⟩
  · norm_num

/-- C7: for a vote weight with `|votes| < 10 ^ 21` and `v = |votes|`, `colorUser`
computes the colour `(max(0, 255-8v), 255, max(0, 255-8v))` for positive votes and
`(255, max(0, 255-8v), max(0, 255-8v))` for negative votes, every channel lies
in `[0, 255]`, and for a non-zero vote weight that colour is the one written on
the indicator (text colour in night mode, background colour otherwise). -/
theorem colorUser_rgb (votes : Int) (hrange : |votes| < 10 ^ 21) :
    (votes > 0 →
      colorUserRGB (parseIntNumber votes) =
        (max 0 (255 - 8 * |votes|), 255, max 0 (255 - 8 * |votes|))) ∧
    (votes < 0 →
      colorUserRGB (parseIntNumber votes) =
        (255, max 0 (255 - 8 * |votes|), max 0 (255 - 8 * |votes|))) ∧
    ((0 ≤ (colorUserRGB (parseIntNumber votes)).1 ∧
        (colorUserRGB (parseIntNumber votes)).1 ≤ 255) ∧
     (0 ≤ (colorUserRGB (parseIntNumber votes)).2.1 ∧
        (colorUserRGB (parseIntNumber votes)).2.1 ≤ 255) ∧
     (0 ≤ (colorUserRGB (parseIntNumber votes)).2.2 ∧
        (colorUserRGB (parseIntNumber votes)).2.2 ≤ 255)) ∧
    (∀ (h : Host) (o : VoteWeightElem) (author : String),
      h.options.trackVoteWeight = true → votes ≠ 0 →
      ∃ o', colorUser h (some o) author votes = some o' ∧
        (if h.nightMode = true then o'.color else o'.backgroundColor) =
          some ("rgb(" ++ toString (colorUserRGB (parseIntNumber votes)).1 ++ ", " ++
            toString (colorUserRGB (parseIntNumber votes)).2.1 ++ ", " ++
            toString (colorUserRGB (parseIntNumber votes)).2.2 ++ ")")) := by
  have hp : parseIntNumber votes = votes := parseIntNumber_of_abs_lt votes hrange
  rw [hp]
  refine ⟨?_, ?_, colorUserRGB_range votes, ?_⟩
  · intro hpos
    have : |votes| = votes := abs_of_pos hpos
    rw [colorUserRGB_exact]
    simp [hpos, this]
  · intro hneg
    have h1 : ¬ votes > 0 := by omega
    have h2 : |8 * votes| = 8 * |votes| := by
      rw [abs_mul]
      norm_num
    rw [colorUserRGB_exact]
    simp [h1, hneg, h2]
  · intro h o author htrack hv
    cases hn : h.nightMode <;> cases hnum : h.options.vwNumber <;>
      cases htip : h.options.vwTooltip <;>
      simp [colorUser, htrack, hv, hn, hnum, htip, colorUserRgbString, hp]

/-- Witness for C7: 32 votes dim the red and blue channels down to 0. -/
theorem colorUser_rgb_witness :
    (32 : Int) > 0 ∧ colorUserRGB (parseIntNumber 32) = (0, 255, 0) :=
  ⟨by decide, ((colorUser_rgb 32 (by decide)).1 (by decide)).trans (by decide)⟩

/-- Counterexample for C7: the vote weight `10 ^ 21` renders as `1e+21`, which
`parseInt` reads as 1, so the colour is that of one vote, `(247, 255, 247)`, where
`max(0, 255 - 8v)` is 0. -/
theorem colorUser_rgb_exponent_form :
    colorUserRGB (parseIntNumber (10 ^ 21)) = (247, 255, 247) ∧
    max 0 (255 - 8 * |(10 ^ 21 : Int)|) = 0 ∧
    (colorUser {} (some {}) "bob" (10 ^ 21)).bind VoteWeightElem.backgroundColor =
      some "rgb(247, 255, 247)" := by
  decide

theorem toString_neg (votes : Int) (hneg : votes < 0) :
    toString votes = "-" ++ toString votes.natAbs := by
  cases votes with
  | ofNat n => exact absurd hneg (by simp)
  | negSucc n => rfl

/-- C8: with vote tracking enabled and `|votes| < 10 ^ 21`, `colorUser` hides the
indicator exactly when `votes = 0`; otherwise it shows it, and the vote string it
writes (in the label when numbers are shown, and in the tooltip when tooltips are
shown) is `+` followed by `votes` for positive votes and `votes` alone, which starts
with its own minus sign, for negative votes. -/
theorem colorUser_indicator (h : Host) (o : VoteWeightElem) (author : String) (votes : Int)
    (htrack : h.options.trackVoteWeight = true) (hrange : |votes| < 10 ^ 21) :
    ∃ o', colorUser h (some o) author votes = some o' ∧
      (o'.display = some "none" ↔ votes = 0) ∧
      (votes = 0 → o' = { o with display := some "none" }) ∧
      (votes ≠ 0 → o'.display = some "inline") ∧
      (votes > 0 → h.options.vwNumber = true →
        o'.textContent = "[" ++ ("+" ++ toString votes) ++ "]") ∧
      (votes < 0 → h.options.vwNumber = true →
        o'.textContent = "[" ++ toString votes ++ "]" ∧
        toString votes = "-" ++ toString votes.natAbs) ∧
      (votes > 0 → h.options.vwTooltip = true →
        o'.title = some ("your votes for " ++ h.escapeHTML author ++ ": " ++
          h.escapeHTML ("+" ++ toString votes))) ∧
      (votes < 0 → h.options.vwTooltip = true →
        o'.title = some ("your votes for " ++ h.escapeHTML author ++ ": " ++
          h.escapeHTML (toString votes))) := by
  have hp : parseIntNumber votes = votes := parseIntNumber_of_abs_lt votes hrange
  by_cases hv : votes = 0
  · subst hv
    refine ⟨{ o with display := some "none" }, by simp [colorUser, htrack, hp], by simp, by simp,
      by simp, by simp, by simp, by simp, by simp⟩
  · refine ⟨_, by simp only [colorUser, htrack, hp, hv, if_true, if_false]; rfl, ?_, ?_, ?_, ?_,
      ?_, ?_, ?_⟩
    · cases hn : h.nightMode <;> cases hnum : h.options.vwNumber <;>
        cases htip : h.options.vwTooltip <;> simp [hv]
    · intro h0
      exact absurd h0 hv
    · intro _
      cases hn : h.nightMode <;> cases hnum : h.options.vwNumber <;>
        cases htip : h.options.vwTooltip <;> simp
    · intro hpos hnum
      cases hn : h.nightMode <;> cases htip : h.options.vwTooltip <;>
        simp [hnum, colorUserVoteString, hpos]
    · intro hneg hnum
      have h1 : ¬ votes > 0 := by omega
      refine ⟨?_, toString_neg votes hneg⟩
      cases hn : h.nightMode <;> cases htip : h.options.vwTooltip <;>
        simp [hnum, colorUserVoteString, h1, hneg]
    · intro hpos htip
      cases hn : h.nightMode <;> cases hnum : h.options.vwNumber <;>
        simp [htip, colorUserVoteString, hpos]
    · intro hneg htip
      have h1 : ¬ votes > 0 := by omega
      cases hn : h.nightMode <;> cases hnum : h.options.vwNumber <;>
        simp [htip, colorUserVoteString, h1, hneg]

/-- Witness for C8: 32 votes show `[+32]`, and -1 shows `[-1]`. -/
theorem colorUser_indicator_witness :
    (∃ o', colorUser {} (some {}) "bob" 32 = some o' ∧ o'.textContent = "[+32]") ∧
    colorUser {} (some {}) "bob" (-1) =
      some { display := some "inline", backgroundColor := some "rgb(255, 247, 247)",
             textContent := "[-1]", title := some "your votes for bob: -1" } := by
  obtain ⟨o', h1, _, _, _, h5, _, _, _⟩ := colorUser_indicator {} {} "bob" 32 rfl (by decide)
  exact ⟨⟨o', h1, (h5 (by decide) rfl).trans (by decide)⟩, by decide⟩

/-- Counterexample for C8: the vote weight `5 * 10 ^ 21` renders as `5e+21`, which
`parseInt` reads as 5, so the label is `[+5]` and the tooltip ends in `+5`; for
`-(10 ^ 21)` the label is `[-1]`. -/
theorem colorUser_indicator_exponent_form :
    colorUser {} (some {}) "bob" (5 * 10 ^ 21) =
      some { display := some "inline", backgroundColor := some "rgb(215, 255, 215)",
             textContent := "[+5]", title := some "your votes for bob: +5" } ∧
    (colorUser {} (some {}) "bob" (-(10 ^ 21))).map VoteWeightElem.textContent =
      some "[-1]" := by
  decide

/-! ## Suppression and restoration -/

theorem removeClass_addClass (l : List String) (c : String) :
    removeClass (addClass l c) c = removeClass l c := by
  unfold addClass removeClass
  split_ifs with hc
  · rfl
  · simp

theorem removeClass_of_not_mem (l : List String) (c : String) (hc : c ∉ l) :
    removeClass l c = l := by
  unfold removeClass
  rw [List.filter_eq_self]
  intro x hx
  have : x ≠ c := fun hxc => hc (hxc ▸ hx)
  simpa using this

theorem Dom.modify_get (d : Dom) (id : Nat) (f : Elem → Elem) (e : Elem)
    (he : Assoc.get d.elems id = some e) :
    Assoc.get (d.modify id f).elems id = some (f e) := by
  simp [Dom.modify, he, Assoc.get_set_self]

/-- C10: for a comment body with any original markup, `ignoreComment` followed by
the "show anyway?" action leaves the body markup as it was before, and the
class list as it was before with the class `ignoredUserComment` removed (so
unchanged when the body did not carry that class). -/
theorem ignoreComment_showAnyway (lay : Layout) (d : Dom) (thisAuthorObj : AuthorObj)
    (thisAuthor : String) (c : Nat) (e : Elem)
    (hc : lay.usertext thisAuthorObj.id = some c) (he : Assoc.get d.elems c = some e) :
    (ignoreComment lay d thisAuthorObj thisAuthor).2 = some c ∧
    ∃ e', Assoc.get (((ignoreComment lay d thisAuthorObj thisAuthor).1).modify c showAnyway).elems c
        = some e' ∧
      e'.content = Content.markup e.innerHTML ∧
      e'.innerHTML = e.innerHTML ∧
      e'.classList = removeClass e.classList "ignoredUserComment" ∧
      ("ignoredUserComment" ∉ e.classList → e'.classList = e.classList) ∧
      "ignoredUserComment" ∉ e'.classList := by
  have hfind : d.find (lay.usertext thisAuthorObj.id) = some c := by
    simp [Dom.find, hc, he]
  have h1 : ignoreComment lay d thisAuthorObj thisAuthor =
      (d.modify c (ignoreCommentElem thisAuthor), some c) := by
    simp [ignoreComment, hfind]
  have h2 := Dom.modify_get d c (ignoreCommentElem thisAuthor) e he
  refine ⟨by rw [h1], showAnyway (ignoreCommentElem thisAuthor e), ?_, ?_, ?_, ?_, ?_, ?_⟩
  · rw [h1]
    exact Dom.modify_get _ c showAnyway _ h2
  · simp [showAnyway, ignoreCommentElem]
  · simp [showAnyway, ignoreCommentElem, Elem.innerHTML]
  · simp [showAnyway, ignoreCommentElem, removeClass_addClass]
  · intro hn
    simp [showAnyway, ignoreCommentElem, removeClass_addClass, removeClass_of_not_mem _ _ hn]
  · simp [showAnyway, ignoreCommentElem, removeClass_addClass, removeClass]

/-- Witness for C10: a comment body `<p>hi</p>` of class `usertext` comes back as it was. -/
theorem ignoreComment_showAnyway_witness :
    ∃ e', Assoc.get (((ignoreComment { usertext := fun _ => some 7 }
          { elems := [(7, { content := Content.markup "<p>hi</p>", classList := ["usertext"] })] }
          { id := 1 } "bob").1).modify 7 showAnyway).elems 7 = some e' ∧
      e'.innerHTML = "<p>hi</p>" ∧ e'.classList = ["usertext"] := by
  obtain ⟨_, e', h1, _, h3, _, h5, _⟩ := ignoreComment_showAnyway { usertext := fun _ => some 7 }
    { elems := [(7, { content := Content.markup "<p>hi</p>", classList := ["usertext"] })] }
    { id := 1 } "bob" 7 { content := Content.markup "<p>hi</p>", classList := ["usertext"] }
    rfl (by decide)
  exact ⟨e', h1, h3, h5 (by decide)⟩

/-! ## Decoration happens once per node -/

theorem Dom.modify_frame (d : Dom) (id : Nat) (f : Elem → Elem) :
    (d.modify id f).applied = d.applied ∧ (d.modify id f).markers = d.markers := by
  unfold Dom.modify
  cases Assoc.get d.elems id <;> simp

theorem Dom.foldl_modify_frame (f : Elem → Elem) (l : List Nat) (d : Dom) :
    (l.foldl (fun d s => d.modify s f) d).applied = d.applied ∧
      (l.foldl (fun d s => d.modify s f) d).markers = d.markers := by
  induction l generalizing d with
  | nil => simp
  | cons s l ih =>
    rw [List.foldl_cons]
    exact ⟨(ih _).1.trans (Dom.modify_frame d s f).1, (ih _).2.trans (Dom.modify_frame d s f).2⟩

theorem ignoreComment_frame (lay : Layout) (d : Dom) (obj : AuthorObj) (a : String) :
    (ignoreComment lay d obj a).1.applied = d.applied ∧
      (ignoreComment lay d obj a).1.markers = d.markers := by
  unfold ignoreComment
  cases d.find (lay.usertext obj.id) with
  | none => simp
  | some c => exact Dom.modify_frame d c _

theorem ignore_frame (h : Host) (lay : Layout) (d : Dom) (obj : AuthorObj) (a : String) :
    (ignore h lay d obj a).applied = d.applied ∧ (ignore h lay d obj a).markers = d.markers := by
  have hc := ignoreComment_frame lay d obj a
  unfold ignore
  by_cases hh : h.options.hardIgnore = true
  · simp only [hh, if_true]
    by_cases hp : h.isPageType "comments" = true
    · simp only [hp, if_true]
      rcases hic : ignoreComment lay d obj a with ⟨d1, _ | c⟩
      · rw [hic] at hc
        exact hc
      · rw [hic] at hc
        exact hc
    · simp only [hp]
      cases d.find (lay.thing obj.id) with
      | none => simp
      | some post =>
        simp only []
        have h1 := Dom.modify_frame d post fun e => { e with display := some "none" }
        cases (d.modify post fun e => { e with display := some "none" }).find
            (lay.previousSibling post) with
        | none => exact h1
        | some prev =>
          have h2 := Dom.modify_frame (d.modify post fun e => { e with display := some "none" })
            prev fun e => { e with display := some "none" }
          exact ⟨h2.1.trans h1.1, h2.2.trans h1.2⟩
  · simp only [hh]
    by_cases hp : h.isPageType "comments" = true
    · simp only [hp, if_true]
      exact hc
    · simp only [hp]
      by_cases hi : h.isPageType "inbox" = true
      · simp only [hi, if_true]
        cases d.find (lay.thing obj.id) with
        | none => simp
        | some m =>
          simp only []
          have h1 : (if (!lay.wasComment m) = true then
                (lay.subject m).foldl (fun d s => d.modify s fun e =>
                  { e with content := Content.markup "Ignored message" }) d
              else d).applied = d.applied ∧
              (if (!lay.wasComment m) = true then
                (lay.subject m).foldl (fun d s => d.modify s fun e =>
                  { e with content := Content.markup "Ignored message" }) d
              else d).markers = d.markers := by
            split_ifs
            · exact Dom.foldl_modify_frame _ _ d
            · exact ⟨rfl, rfl⟩
          generalize (if (!lay.wasComment m) = true then
                (lay.subject m).foldl (fun d s => d.modify s fun e =>
                  { e with content := Content.markup "Ignored message" }) d
              else d) = d1 at h1 ⊢
          cases d1.find (lay.md m) with
          | none => exact h1
          | some p =>
            have h2 := Dom.modify_frame d1 p (ignorePostElem a)
            exact ⟨h2.1.trans h1.1, h2.2.trans h1.2⟩
      · simp only [hi]
        cases ((d.find (lay.thing obj.id)).bind fun m => d.find (lay.title m)) with
        | none => simp
        | some p => exact Dom.modify_frame d p (ignorePostElem a)

theorem addUserTag_counts (d : Dom) (obj : AuthorObj) (noEdit : Bool) (a : String)
    (color tag : Option String) :
    (addUserTag d obj noEdit a color tag).applied = d.applied ∧
    ∀ n, tagMarkerCount (addUserTag d obj noEdit a color tag) n =
          tagMarkerCount d n + (if obj.id = n then 1 else 0) ∧
        voteWeightCount (addUserTag d obj noEdit a color tag) n = voteWeightCount d n := by
  refine ⟨rfl, fun n => ?_⟩
  by_cases hn : obj.id = n <;>
    simp [addUserTag, tagMarkerCount, voteWeightCount, List.filter_cons, Marker.isUserTag,
      Marker.isVoteWeight, hn]

theorem addTrackVoteWeight_counts (h : Host) (d : Dom) (obj : AuthorObj) (a : String)
    (votes : Int) :
    (addTrackVoteWeight h d obj a votes).applied = d.applied ∧
    ∀ n, tagMarkerCount (addTrackVoteWeight h d obj a votes) n = tagMarkerCount d n ∧
        voteWeightCount (addTrackVoteWeight h d obj a votes) n =
          voteWeightCount d n + (if obj.id = n then 1 else 0) := by
  refine ⟨rfl, fun n => ?_⟩
  by_cases hn : obj.id = n <;>
    simp [addTrackVoteWeight, tagMarkerCount, voteWeightCount, List.filter_cons,
      Marker.isUserTag, Marker.isVoteWeight, hn]

theorem addAuthorTag_counts (h : Host) (d : Dom) (obj : AuthorObj) (noEdit : Bool) (a : String)
    (tagObject : Option TagRecord) :
    (addAuthorTag h d obj noEdit a tagObject).applied = d.applied ∧
    ∃ x y : Nat, x ≤ 1 ∧ y ≤ 1 ∧
      ∀ n, tagMarkerCount (addAuthorTag h d obj noEdit a tagObject) n =
            tagMarkerCount d n + (if obj.id = n then x else 0) ∧
          voteWeightCount (addAuthorTag h d obj noEdit a tagObject) n =
            voteWeightCount d n + (if obj.id = n then y else 0) := by
  cases noEdit with
  | true =>
    by_cases htag : truthy (tagObject.getD {}).tag = true
    · have e : addAuthorTag h d obj true a tagObject =
          addUserTag d obj true a (tagObject.getD {}).color (tagObject.getD {}).tag := by
        simp only [addAuthorTag, htag, if_true]
      rw [e]
      refine ⟨rfl, 1, 0, le_refl _, Nat.zero_le _, fun n => ?_⟩
      simpa using (addUserTag_counts d obj true a (tagObject.getD {}).color
        (tagObject.getD {}).tag).2 n
    · have e : addAuthorTag h d obj true a tagObject = d := by
        simp only [addAuthorTag, htag, if_true, if_false]
        rfl
      rw [e]
      exact ⟨rfl, 0, 0, Nat.zero_le _, Nat.zero_le _, fun n => by simp⟩
  | false =>
    have h1 := addTrackVoteWeight_counts h d obj a ((tagObject.getD {}).votes.getD 0)
    by_cases ht : h.options.trackVoteWeight = true <;>
      by_cases hs : (truthy (tagObject.getD {}).tag || h.options.showTaggingIcon) = true
    · have e : addAuthorTag h d obj false a tagObject =
          addUserTag (addTrackVoteWeight h d obj a ((tagObject.getD {}).votes.getD 0)) obj false a
            (tagObject.getD {}).color (tagObject.getD {}).tag := by
        simp only [addAuthorTag, ht, hs, if_true, Bool.false_eq_true, if_false]
      rw [e]
      refine ⟨rfl, 1, 1, le_refl _, le_refl _, fun n => ?_⟩
      have h2 := (addUserTag_counts (addTrackVoteWeight h d obj a
        ((tagObject.getD {}).votes.getD 0)) obj false a (tagObject.getD {}).color
        (tagObject.getD {}).tag).2 n
      rw [h2.1, h2.2, (h1.2 n).1, (h1.2 n).2]
      exact ⟨rfl, rfl⟩
    · have e : addAuthorTag h d obj false a tagObject =
          addTrackVoteWeight h d obj a ((tagObject.getD {}).votes.getD 0) := by
        simp only [addAuthorTag, ht, hs, if_true, Bool.false_eq_true, if_false]
      rw [e]
      refine ⟨rfl, 0, 1, Nat.zero_le _, le_refl _, fun n => ?_⟩
      rw [(h1.2 n).1, (h1.2 n).2]
      simp
    · have e : addAuthorTag h d obj false a tagObject =
          addUserTag d obj false a (tagObject.getD {}).color (tagObject.getD {}).tag := by
        simp only [addAuthorTag, ht, hs, if_true, Bool.false_eq_true, if_false]
      rw [e]
      refine ⟨rfl, 1, 0, le_refl _, Nat.zero_le _, fun n => ?_⟩
      simpa using (addUserTag_counts d obj false a (tagObject.getD {}).color
        (tagObject.getD {}).tag).2 n
    · have e : addAuthorTag h d obj false a tagObject = d := by
        simp only [addAuthorTag, ht, hs, if_true, Bool.false_eq_true, if_false]
      rw [e]
      exact ⟨rfl, 0, 0, Nat.zero_le _, Nat.zero_le _, fun n => by simp⟩

theorem applyTagToAuthor_applied (h : Host) (lay : Layout) (tags : Store) (d : Dom)
    (obj : AuthorObj) (noEdit : Bool) (happlied : obj.id ∈ d.applied) :
    applyTagToAuthor h lay tags d (some obj) noEdit = d := by
  simp [applyTagToAuthor, happlied]

theorem applyTagToAuthor_new (h : Host) (lay : Layout) (tags : Store) (d : Dom)
    (obj : AuthorObj) (noEdit : Bool) (hnew : obj.id ∉ d.applied) :
    (applyTagToAuthor h lay tags d (some obj) noEdit).applied = obj.id :: d.applied ∧
    ∃ x y : Nat, x ≤ 1 ∧ y ≤ 1 ∧
      ∀ n, tagMarkerCount (applyTagToAuthor h lay tags d (some obj) noEdit) n =
            tagMarkerCount d n + (if obj.id = n then x else 0) ∧
          voteWeightCount (applyTagToAuthor h lay tags d (some obj) noEdit) n =
            voteWeightCount d n + (if obj.id = n then y else 0) := by
  have hc : d.applied.contains obj.id = false := by simpa using hnew
  unfold applyTagToAuthor
  simp only [hc, Bool.false_eq_true, if_false]
  generalize (if truthy obj.href = true then usernameREMatch (obj.href.getD "").data
      else if truthy obj.dataUser = true then obj.dataUser
      else if truthy obj.innerText = true then obj.innerText
      else some "") = found
  cases found with
  | none => exact ⟨rfl, 0, 0, Nat.zero_le _, Nat.zero_le _, fun n => by simp [tagMarkerCount, voteWeightCount]⟩
  | some name =>
    simp only []
    have hd : (if (h.options.showTaggingIcon || (readTags tags (toLowerCase name)).isSome) = true
          then addAuthorTag h { d with applied := obj.id :: d.applied } obj noEdit
            (toLowerCase name) (readTags tags (toLowerCase name))
          else { d with applied := obj.id :: d.applied }).applied = obj.id :: d.applied ∧
        ∃ x y : Nat, x ≤ 1 ∧ y ≤ 1 ∧
          ∀ n, tagMarkerCount (if (h.options.showTaggingIcon ||
                  (readTags tags (toLowerCase name)).isSome) = true
                then addAuthorTag h { d with applied := obj.id :: d.applied } obj noEdit
                  (toLowerCase name) (readTags tags (toLowerCase name))
                else { d with applied := obj.id :: d.applied }) n =
                tagMarkerCount d n + (if obj.id = n then x else 0) ∧
              voteWeightCount (if (h.options.showTaggingIcon ||
                  (readTags tags (toLowerCase name)).isSome) = true
                then addAuthorTag h { d with applied := obj.id :: d.applied } obj noEdit
                  (toLowerCase name) (readTags tags (toLowerCase name))
                else { d with applied := obj.id :: d.applied }) n =
                voteWeightCount d n + (if obj.id = n then y else 0) := by
      split_ifs
      · obtain ⟨h1, x, y, hx, hy, h2⟩ := addAuthorTag_counts h
          { d with applied := obj.id :: d.applied } obj noEdit (toLowerCase name)
          (readTags tags (toLowerCase name))
        exact ⟨h1, x, y, hx, hy, h2⟩
      · exact ⟨rfl, 0, 0, Nat.zero_le _, Nat.zero_le _, fun n => by
          simp [tagMarkerCount, voteWeightCount]⟩
    generalize (if (h.options.showTaggingIcon || (readTags tags (toLowerCase name)).isSome) = true
          then addAuthorTag h { d with applied := obj.id :: d.applied } obj noEdit
            (toLowerCase name) (readTags tags (toLowerCase name))
          else { d with applied := obj.id :: d.applied }) = d1 at hd ⊢
    split_ifs
    · obtain ⟨h1, x, y, hx, hy, h2⟩ := hd
      have hf := ignore_frame h lay d1 obj (toLowerCase name)
      refine ⟨hf.1.trans h1, x, y, hx, hy, fun n => ?_⟩
      have h3 := h2 n
      simp only [tagMarkerCount, voteWeightCount, hf.2] at h3 ⊢
      exact h3
    · exact hd

theorem applyTagToAuthor_step (h : Host) (lay : Layout) (tags : Store) (d : Dom)
    (obj : Option AuthorObj) (noEdit : Bool) (hd : DecoratedOnce d) :
    DecoratedOnce (applyTagToAuthor h lay tags d obj noEdit) ∧
    (∀ n, n ∈ d.applied → n ∈ (applyTagToAuthor h lay tags d obj noEdit).applied) ∧
    (∀ o, obj = some o → o.id ∈ (applyTagToAuthor h lay tags d obj noEdit).applied) := by
  cases obj with
  | none => exact ⟨hd, fun _ hn => hn, fun o ho => by cases ho⟩
  | some o =>
    by_cases ha : o.id ∈ d.applied
    · rw [applyTagToAuthor_applied h lay tags d o noEdit ha]
      refine ⟨hd, fun _ hn => hn, fun o' ho' => ?_⟩
      cases ho'
      exact ha
    · obtain ⟨h1, x, y, hx, hy, h2⟩ := applyTagToAuthor_new h lay tags d o noEdit ha
      refine ⟨fun n => ?_, fun n hn => ?_, fun o' ho' => ?_⟩
      · obtain ⟨e1, e2⟩ := h2 n
        obtain ⟨b1, b2, b3⟩ := hd n
        rw [e1, e2, h1]
        by_cases hn : o.id = n
        · subst hn
          obtain ⟨z1, z2⟩ := b3 ha
          simp only [if_true, z1, z2]
          refine ⟨by omega, by omega, fun hnot => ?_⟩
          exact absurd (List.mem_cons_self _ _) hnot
        · simp only [hn, if_false, Nat.add_zero]
          refine ⟨b1, b2, fun hnot => b3 fun hmem => hnot (List.mem_cons_of_mem _ hmem)⟩
      · rw [h1]
        exact List.mem_cons_of_mem _ hn
      · cases ho'
        rw [h1]
        exact List.mem_cons_self _ _

theorem applyAll_invariant (h : Host) (lay : Layout)
    (calls : List (Store × Option AuthorObj × Bool)) (d : Dom) (hd : DecoratedOnce d) :
    DecoratedOnce (applyAll h lay d calls) ∧
    (∀ n, n ∈ d.applied → n ∈ (applyAll h lay d calls).applied) ∧
    (∀ tags o noEdit, (tags, some o, noEdit) ∈ calls → o.id ∈ (applyAll h lay d calls).applied) := by
  induction calls generalizing d with
  | nil => exact ⟨hd, fun _ hn => hn, fun _ _ _ hmem => by cases hmem⟩
  | cons c rest ih =>
    obtain ⟨tags, obj, noEdit⟩ := c
    obtain ⟨s1, s2, s3⟩ := applyTagToAuthor_step h lay tags d obj noEdit hd
    obtain ⟨i1, i2, i3⟩ := ih (applyTagToAuthor h lay tags d obj noEdit) s1
    refine ⟨i1, fun n hn => i2 n (s2 n hn), fun tags' o noEdit' hmem => ?_⟩
    rcases List.mem_cons.1 hmem with heq | hmem
    · cases heq
      exact i2 _ (s3 o rfl)
    · exact i3 tags' o noEdit' hmem

/-- C6: after any sequence of `applyTagToAuthor` calls, started on a tree whose
WeakMap is empty and that holds no marker, every occurrence node is followed by
at most one tag marker and at most one vote-weight indicator; every node of the
sequence is a key of the WeakMap; and a further call on a node that is a key
changes nothing, whatever author, store and `noEdit` it comes with. -/
theorem applyTagToAuthor_once (h : Host) (lay : Layout) (elems : List (Nat × Elem))
    (calls : List (Store × Option AuthorObj × Bool)) :
    (∀ n, tagMarkerCount (applyAll h lay { elems := elems } calls) n ≤ 1 ∧
      voteWeightCount (applyAll h lay { elems := elems } calls) n ≤ 1) ∧
    (∀ tags o noEdit, (tags, some o, noEdit) ∈ calls →
      o.id ∈ (applyAll h lay { elems := elems } calls).applied) ∧
    (∀ (h' : Host) (lay' : Layout) (tags : Store) (o : AuthorObj) (noEdit : Bool),
      o.id ∈ (applyAll h lay { elems := elems } calls).applied →
      applyTagToAuthor h' lay' tags (applyAll h lay { elems := elems } calls) (some o) noEdit =
        applyAll h lay { elems := elems } calls) := by
  have h0 : DecoratedOnce { elems := elems } := fun n => by
    simp [tagMarkerCount, voteWeightCount]
  obtain ⟨i1, _, i3⟩ := applyAll_invariant h lay calls { elems := elems } h0
  exact ⟨fun n => ⟨(i1 n).1, (i1 n).2.1⟩, i3,
    fun h' lay' tags o noEdit hmem => applyTagToAuthor_applied h' lay' tags _ o noEdit hmem⟩

/-- Witness for C6: two author nodes of the same user, each offered twice, get one
tag marker and one vote-weight indicator each, and a third call on the first node
changes nothing. -/
theorem applyTagToAuthor_once_witness :
    tagMarkerCount (applyAll {} {} {}
        [([], some { id := 1, href := some "/user/bob" }, false),
         ([], some { id := 2, href := some "/user/bob" }, false),
         ([], some { id := 1, href := some "/user/bob" }, false),
         ([], some { id := 2, href := some "/user/bob" }, false)]) 1 = 1 ∧
      applyTagToAuthor {} {} [("bob", { tag := some "pal" })] (applyAll {} {} {}
        [([], some { id := 1, href := some "/user/bob" }, false),
         ([], some { id := 2, href := some "/user/bob" }, false),
         ([], some { id := 1, href := some "/user/bob" }, false),
         ([], some { id := 2, href := some "/user/bob" }, false)])
        (some { id := 1, href := some "/user/alice" }) true =
      applyAll {} {} {}
        [([], some { id := 1, href := some "/user/bob" }, false),
         ([], some { id := 2, href := some "/user/bob" }, false),
         ([], some { id := 1, href := some "/user/bob" }, false),
         ([], some { id := 2, href := some "/user/bob" }, false)] :=
  ⟨by decide,
   (applyTagToAuthor_once {} {} []
      [([], some { id := 1, href := some "/user/bob" }, false),
       ([], some { id := 2, href := some "/user/bob" }, false),
       ([], some { id := 1, href := some "/user/bob" }, false),
       ([], some { id := 2, href := some "/user/bob" }, false)]).2.2 {} {}
      [("bob", { tag := some "pal" })] { id := 1, href := some "/user/alice" } true (by decide)⟩

/-! ## The tag table sorted by vote weight -/

theorem lexLt_asymm : ∀ x y : List Nat, lexLt x y = true → lexLt y x = false
  | [], [], h => by simp [lexLt] at h
  | [], _ :: _, _ => by simp [lexLt]
  | _ :: _, [], h => by simp [lexLt] at h
  | a :: as, b :: bs, h => by
    unfold lexLt at h ⊢
    by_cases h1 : a < b
    · have h2 : ¬ b < a := by omega
      simp [h1, h2]
    · by_cases h2 : b < a
      · simp [h1, h2] at h
      · simp only [h1, h2, if_false] at h ⊢
        exact lexLt_asymm as bs h

theorem lexLt_cotrans : ∀ x y z : List Nat, lexLt x z = true → lexLt x y = true ∨ lexLt y z = true
  | [], _, [], h => by simp [lexLt] at h
  | _ :: _, _, [], h => by simp [lexLt] at h
  | [], [], _ :: _, _ => by simp [lexLt]
  | [], _ :: _, _ :: _, _ => by simp [lexLt]
  | _ :: _, [], _ :: _, _ => by simp [lexLt]
  | a :: as, b :: bs, c :: cs, h => by
    unfold lexLt at h ⊢
    by_cases hab : a < b
    · simp [hab]
    · by_cases hbc : b < c
      · simp [hbc]
      · by_cases hac : a < c
        · omega
        · by_cases hca : c < a
          · simp [hac, hca] at h
          · have hba : ¬ b < a := by omega
            have hcb : ¬ c < b := by omega
            simp only [hac, hca, hab, hba, hbc, hcb, if_false] at h ⊢
            exact lexLt_cotrans as bs cs h

theorem compareByVotes_le_iff (tags : Store) (a b : String) :
    compareByVotes tags a b ≤ 0 ↔
      ((Assoc.get tags a).getD {}).votes.getD 0 < ((Assoc.get tags b).getD {}).votes.getD 0 ∨
      (((Assoc.get tags a).getD {}).votes.getD 0 = ((Assoc.get tags b).getD {}).votes.getD 0 ∧
        jsGt (toLowerCase a) (toLowerCase b) = false) := by
  unfold compareByVotes
  simp only []
  split_ifs with h1 h2 h3 h4
  · constructor
    · intro h
      omega
    · rintro (h | ⟨h, _⟩) <;> omega
  · simp [h2]
  · constructor
    · intro h
      omega
    · rintro (h | ⟨_, h⟩)
      · omega
      · rw [h3] at h
        cases h
  · have : ((Assoc.get tags a).getD {}).votes.getD 0 = ((Assoc.get tags b).getD {}).votes.getD 0 := by
      omega
    simp [this, h3]
  · have : ((Assoc.get tags a).getD {}).votes.getD 0 = ((Assoc.get tags b).getD {}).votes.getD 0 := by
      omega
    simp [this, h3]

theorem compareByVotes_total (tags : Store) (a b : String) :
    compareByVotes tags a b ≤ 0 ∨ compareByVotes tags b a ≤ 0 := by
  rw [compareByVotes_le_iff, compareByVotes_le_iff]
  rcases lt_trichotomy (((Assoc.get tags a).getD {}).votes.getD 0)
      (((Assoc.get tags b).getD {}).votes.getD 0) with h | h | h
  · exact Or.inl (Or.inl h)
  · cases hg : jsGt (toLowerCase a) (toLowerCase b) with
    | false => exact Or.inl (Or.inr ⟨h, rfl⟩)
    | true =>
      right
      right
      exact ⟨h.symm, lexLt_asymm _ _ hg⟩
  · exact Or.inr (Or.inl h)

theorem compareByVotes_trans (tags : Store) (a b c : String)
    (hab : compareByVotes tags a b ≤ 0) (hbc : compareByVotes tags b c ≤ 0) :
    compareByVotes tags a c ≤ 0 := by
  rw [compareByVotes_le_iff] at hab hbc ⊢
  rcases hab with hab | ⟨hab, gab⟩ <;> rcases hbc with hbc | ⟨hbc, gbc⟩
  · exact Or.inl (by omega)
  · exact Or.inl (by omega)
  · exact Or.inl (by omega)
  · refine Or.inr ⟨by omega, ?_⟩
    cases hg : jsGt (toLowerCase a) (toLowerCase c) with
    | false => rfl
    | true =>
      rcases lexLt_cotrans _ (codeUnits (toLowerCase b).data) _ hg with h | h
      · have : jsGt (toLowerCase b) (toLowerCase c) = true := h
        rw [gbc] at this
        cases this
      · have : jsGt (toLowerCase a) (toLowerCase b) = true := h
        rw [gab] at this
        cases this

theorem jsSort_compareByVotes_sorted (tags : Store) (l : List String) :
    (jsSort (compareByVotes tags) l).Pairwise fun a b => compareByVotes tags a b ≤ 0 := by
  haveI : IsTotal String (fun a b => compareByVotes tags a b ≤ 0) :=
    ⟨compareByVotes_total tags⟩
  haveI : IsTrans String (fun a b => compareByVotes tags a b ≤ 0) :=
    ⟨compareByVotes_trans tags⟩
  exact List.sorted_insertionSort (fun a b => compareByVotes tags a b ≤ 0) l

theorem arrayIndex_toString (k : String) (n : Nat) (hk : arrayIndex k = some n) :
    toString n = k := by
  unfold arrayIndex at hk
  simp only [] at hk
  split_ifs at hk with hc
  cases hk
  exact hc.1

theorem forInKeys_perm (tags : Store) : List.Perm (forInKeys tags) (tags.map Prod.fst) := by
  unfold forInKeys
  simp only []
  have h1 : List.Perm
      (((tags.map Prod.fst).filterMap arrayIndex).insertionSort (fun a b => a ≤ b) |>.map toString)
      ((tags.map Prod.fst).filter fun k => (arrayIndex k).isSome) := by
    refine ((List.perm_insertionSort _ _).map _).trans ?_
    apply List.Perm.of_eq
    induction tags.map Prod.fst with
    | nil => rfl
    | cons k ks ih =>
      cases hk : arrayIndex k with
      | none => simp [List.filterMap_cons, List.filter_cons, hk, ih]
      | some n => simp [List.filterMap_cons, List.filter_cons, hk, ih, arrayIndex_toString k n hk]
  have h2 : (tags.map Prod.fst).filter (fun k => (arrayIndex k).isNone) =
      (tags.map Prod.fst).filter (fun k => !(arrayIndex k).isSome) := by
    congr 1
    funext k
    cases arrayIndex k <;> rfl
  rw [h2]
  exact (List.Perm.append_right _ h1).trans (List.filter_append_perm _ _)

theorem slice_full {α : Type} (l : List α) : slice l 0 (l.length : Int) = l := by
  unfold slice
  have h1 : ¬ ((l.length : Int) < 0) := by omega
  simp [h1]

/-- C9: for the sort key `votes`, ascending, the row order of `drawUserTagTable` is
a permutation of the filtered usernames in which each row `a` before a row `b`
has `votes(a) < votes(b)`, or `votes(a) = votes(b)` and not
`lowercase(a) > lowercase(b)`, a missing `votes` field counting as 0; without
paging these are the rows rendered, and with paging the rendered rows are a
slice of them. -/
theorem drawUserTagTable_votes_ascending (env : TableEnv) (st : State) :
    List.Perm (sortedUsers env st (some "votes") (some false))
      ((st.tags.map Prod.fst).filter fun k =>
        if env.filterType = some "tagged users" then ((Assoc.get st.tags k).getD {}).tag.isSome
        else true) ∧
    (sortedUsers env st (some "votes") (some false)).Pairwise (fun a b =>
      ((Assoc.get st.tags a).getD {}).votes.getD 0 < ((Assoc.get st.tags b).getD {}).votes.getD 0 ∨
      (((Assoc.get st.tags a).getD {}).votes.getD 0 = ((Assoc.get st.tags b).getD {}).votes.getD 0 ∧
        jsGt (toLowerCase a) (toLowerCase b) = false)) ∧
    (env.tagsPerPage = none →
      (drawUserTagTable env st (some "votes") (some false)).rows.map Row.user =
        sortedUsers env st (some "votes") (some false)) ∧
    (∃ start stop : Int,
      (drawUserTagTable env st (some "votes") (some false)).rows.map Row.user =
        slice (sortedUsers env st (some "votes") (some false)) start stop) := by
  have hs : sortedUsers env st (some "votes") (some false) =
      jsSort (compareByVotes st.tags) (taggedUsers env st.tags) := by
    simp [sortedUsers, sortUsers, nextSortMethod, nextDescending, truthy]
  have hmap : ∀ l : List String, (l.map (renderRow st.tags)).map Row.user = l := by
    intro l
    simp [List.map_map, Function.comp_def, renderRow]
  refine ⟨?_, ?_, ?_, ?_⟩
  · rw [hs]
    exact (List.perm_insertionSort _ _).trans ((forInKeys_perm st.tags).filter _)
  · rw [hs]
    exact (jsSort_compareByVotes_sorted st.tags _).imp fun h =>
      (compareByVotes_le_iff st.tags _ _).1 h
  · intro hnone
    simp only [drawUserTagTable, hnone]
    rw [hmap, slice_full]
  · unfold drawUserTagTable
    simp only []
    split
    · exact ⟨_, _, hmap _⟩
    · exact ⟨_, _, hmap _⟩

/-- Witness for C9: `{alice: 5, bob: -2, carol: no votes}` is shown as bob, carol, alice. -/
theorem drawUserTagTable_votes_ascending_witness :
    (drawUserTagTable { filterType := some "all users" }
      { tags := [("alice", { votes := some 5 }), ("bob", { votes := some (-2) }), ("carol", {})] }
      (some "votes") (some false)).rows.map Row.user = ["bob", "carol", "alice"] :=
  ((drawUserTagTable_votes_ascending { filterType := some "all users" }
      { tags := [("alice", { votes := some 5 }), ("bob", { votes := some (-2) }), ("carol", {})] }
    ).2.2.1 rfl).trans (by decide)

/-! ## Suppression of a listing title -/

theorem showAnyway_ignorePostElem (thisAuthor : String) (e : Elem) :
    showAnyway (ignorePostElem thisAuthor e) =
      { e with content := Content.markup e.innerHTML
               classList := ["md"]
               dataOriginal := some e.innerHTML } := by
  simp [showAnyway, ignorePostElem, removeClass, addClass]

/-- C11, evaluated: on a listing page, soft suppression of a title paragraph of
class `title` followed by the "show anyway?" action brings the markup back but
leaves the class list `md`, not `title`. -/
theorem ignore_showAnyway_title_class :
    Assoc.get ((ignore {} { thing := fun _ => some 5, title := fun _ => some 6 }
        { elems := [(5, { content := Content.markup "" , classList := ["thing", "link"] }),
                    (6, { content := Content.markup "Hello <b>world</b>",
                          classList := ["title"] })] }
        { id := 1, classList := ["author"] } "bob").modify 6 showAnyway).elems 6 =
      some { content := Content.markup "Hello <b>world</b>", classList := ["md"],
             dataOriginal := some "Hello <b>world</b>" } := by
  decide

/-! ## `setUserTag`: the persisted entry -/

theorem TagRecord.merge_empty (r : TagRecord) : TagRecord.merge {} r = r := by
  obtain ⟨tag, link, color, ignore, votes⟩ := r
  cases tag <;> cases link <;> cases color <;> cases ignore <;> cases votes <;> rfl

theorem persisted_eq_of_step (tags stored : Store) (k : String) :
    Assoc.get (if (match Assoc.get tags k with
                   | some r => r.isEmpty
                   | none => true) = true then
                 (Assoc.delete tags k, Storage.deletePath stored k)
               else
                 (tags, Storage.patch (Storage.deletePath stored k) k
                          ((Assoc.get tags k).getD {}))).2 k =
      Assoc.get (if (match Assoc.get tags k with
                     | some r => r.isEmpty
                     | none => true) = true then
                   (Assoc.delete tags k, Storage.deletePath stored k)
                 else
                   (tags, Storage.patch (Storage.deletePath stored k) k
                            ((Assoc.get tags k).getD {}))).1 k := by
  cases hg : Assoc.get tags k with
  | none => simp [Storage.deletePath, Assoc.get_delete_self]
  | some r =>
    by_cases he : r.isEmpty = true
    · simp [he, Storage.deletePath, Assoc.get_delete_self]
    · simp [he, hg, Storage.patch, Storage.deletePath, Assoc.get_set_self, Assoc.get_delete_self,
        TagRecord.merge_empty]

/-- C12: after every `setUserTag` call, whatever the persisted store held, the
persisted entry of the lowercased username equals the in-memory record of that
username: both absent, or the same record field for field. -/
theorem setUserTag_persisted_eq (h : Host) (st : State) (username tag color : String)
    (ignore : Bool) (link : String) (votes : Int) (noclick : Bool) :
    Assoc.get (setUserTag h st username tag color ignore link votes noclick).stored
        (toLowerCase username) =
      Assoc.get (setUserTag h st username tag color ignore link votes noclick).tags
        (toLowerCase username) := by
  unfold setUserTag
  exact persisted_eq_of_step _ st.stored (toLowerCase username)

/-! ## `setUserTag`: the sentinel label -/

/-- C13: for every store, username, color, link and votes, `setUserTag` called
with an empty label and `ignore = true` leaves a record for the lowercased
username whose tag is `ignored` and whose ignore flag is true. -/
theorem setUserTag_ignored_sentinel (h : Host) (st : State) (username color link : String)
    (votes : Int) (noclick : Bool) :
    ∃ r : TagRecord,
      Assoc.get (setUserTag h st username "" color true link votes noclick).tags
        (toLowerCase username) = some r ∧
      r.tag = some "ignored" ∧ r.ignore = some true := by
  refine ⟨_, setUserTag_get_of_label h st username "" color link true noclick votes (Or.inr rfl),
    ?_, ?_⟩
  · simp
  · simp

/-! ## `handleVoteClick`: skipped clicks -/

theorem handleVoteClick_skipped (h : Host) (st : State) (ev : VoteClick)
    (hskip : ev.classes.contains "archived" = true ∨ truthy ev.author = false ∨
      ev.author = h.loggedInUser) :
    handleVoteClick h st ev = st := by
  have hc : (ev.classes.contains "archived" || !(truthy ev.author) ||
      ev.author == h.loggedInUser) = true := by
    rcases hskip with hs | hs | hs
    · rw [hs]
      rfl
    · rw [hs]
      simp
    · rw [hs]
      simp
  unfold handleVoteClick
  rw [if_pos hc]

/-- C14: `handleVoteClick` leaves the state, and with it the in-memory store and
the persisted store, as it was whenever the clicked control is archived, no
author resolves, or the author is the viewer, two names being the same user when
their lowercased forms are equal. The names are those the site renders:
`thing.getAuthor()` and `loggedInUser()` spell one account the same way, which
is the hypothesis `hsite`. -/
theorem handleVoteClick_skip_frame (h : Host) (st : State) (ev : VoteClick)
    (hsite : ∀ a b, ev.author = some a → h.loggedInUser = some b →
      toLowerCase a = toLowerCase b → a = b)
    (hskip : ev.classes.contains "archived" = true ∨ truthy ev.author = false ∨
      ∃ a b, ev.author = some a ∧ h.loggedInUser = some b ∧ toLowerCase a = toLowerCase b) :
    handleVoteClick h st ev = st ∧
      (handleVoteClick h st ev).tags = st.tags ∧
      (handleVoteClick h st ev).stored = st.stored := by
  have hst : handleVoteClick h st ev = st := by
    apply handleVoteClick_skipped
    rcases hskip with hs | hs | ⟨a, b, ha, hb, hab⟩
    · exact Or.inl hs
    · exact Or.inr (Or.inl hs)
    · refine Or.inr (Or.inr ?_)
      rw [ha, hb, hsite a b ha hb hab]
  rw [hst]
  exact ⟨rfl, rfl, rfl⟩

/-- Witness for C14: the viewer `Bob` clicks the neutral up arrow of a post of
their own; the record of `bob` keeps its vote weight 2. -/
theorem handleVoteClick_skip_frame_witness :
    handleVoteClick { loggedInUser := some "Bob" } { tags := [("bob", { votes := some 2 })] }
        { classes := ["arrow", "up"], siblings := [["arrow", "down"]], author := some "Bob" } =
      { tags := [("bob", { votes := some 2 })] } :=
  (handleVoteClick_skip_frame { loggedInUser := some "Bob" }
    { tags := [("bob", { votes := some 2 })] }
    { classes := ["arrow", "up"], siblings := [["arrow", "down"]], author := some "Bob" }
    (fun _ _ ha hb _ => (Option.some.inj ha).symm.trans (Option.some.inj hb))
    (Or.inr (Or.inr ⟨"Bob", "Bob", rfl, rfl, rfl⟩))).1

/-- The test against the viewer compares the two names as they are given, before
the author is lowercased: were the two spelled differently, as `bob` and `Bob`,
the click would count. -/
theorem handleVoteClick_compares_spelling :
    (handleVoteClick { loggedInUser := some "bob" } {}
        { classes := ["arrow", "up"], siblings := [["arrow", "down"]],
          author := some "Bob" }).tags = [("bob", { votes := some 1 })] ∧
      (handleVoteClick { loggedInUser := some "bob" } {}
        { classes := ["arrow", "up"], siblings := [["arrow", "down"]],
          author := some "Bob" }).stored = [("bob", { votes := some 1 })] := by
  decide

/-! ## Paging of the tag table -/

theorem pageCount_bounds (c size : Int) (hs : 0 < size) :
    (-(Int.fdiv (-c) size) - 1) * size < c ∧ c ≤ -(Int.fdiv (-c) size) * size := by
  rw [Int.fdiv_eq_ediv _ (le_of_lt hs)]
  have h1 := Int.ediv_add_emod (-c) size
  have h2 := Int.emod_nonneg (-c) (ne_of_gt hs)
  have h3 := Int.emod_lt_of_pos (-c) hs
  constructor <;> nlinarith

theorem pageCount_eq_ceil (c size : Int) (hs : 0 < size) :
    -(Int.fdiv (-c) size) = ⌈(c : ℚ) / (size : ℚ)⌉ := by
  symm
  rw [Int.ceil_eq_iff]
  obtain ⟨h1, h2⟩ := pageCount_bounds c size hs
  have hq : (0 : ℚ) < (size : ℚ) := by exact_mod_cast hs
  constructor
  · rw [lt_div_iff₀ hq]
    exact_mod_cast h1
  · rw [div_le_iff₀ hq]
    exact_mod_cast h2

theorem slice_page {α : Type} (l : List α) (n i : Nat) (hi : n * i ≤ l.length) :
    slice l ((n : Int) * (((i : Int) + 1) - 1)) (min (l.length : Int) ((n : Int) * ((i : Int) + 1))) =
      (l.drop (n * i)).take n := by
  unfold slice
  have e1 : (n : Int) * (((i : Int) + 1) - 1) = ((n * i : Nat) : Int) := by push_cast; ring
  have e2 : min (l.length : Int) ((n : Int) * ((i : Int) + 1)) = ((min l.length (n * (i + 1)) : Nat) : Int) := by
    push_cast; rfl
  rw [e1, e2]
  have h1 : ¬ (((n * i : Nat) : Int) < 0) := by omega
  have h2 : ¬ (((min l.length (n * (i + 1)) : Nat) : Int) < 0) := by omega
  simp only [h1, h2, if_false]
  have h3 : min ((n * i : Nat) : Int) (l.length : Int) = ((n * i : Nat) : Int) := by
    apply min_eq_left; exact_mod_cast hi
  have h4 : min ((min l.length (n * (i + 1)) : Nat) : Int) (l.length : Int) =
      ((min l.length (n * (i + 1)) : Nat) : Int) := by
    apply min_eq_left; exact_mod_cast Nat.min_le_left _ _
  rw [h3, h4]
  have h5 : (((min l.length (n * (i + 1)) : Nat) : Int) - ((n * i : Nat) : Int)).toNat =
      min (l.length - n * i) n := by
    have : n * (i + 1) = n * i + n := by ring
    omega
  rw [h5, Int.toNat_ofNat]
  rw [← List.length_drop, Nat.min_comm, ← List.take_take]
  rw [List.take_of_length_le (le_refl _)]

theorem pages_flatten {α : Type} (l : List α) (n : Nat) (k : Nat) :
    ((List.range k).map fun i => (l.drop (n * i)).take n).flatten = l.take (n * k) := by
  induction k with
  | zero => simp
  | succ k ih =>
    rw [List.range_succ, List.map_append, List.flatten_append, ih]
    simp only [List.map_cons, List.map_nil, List.flatten_cons, List.flatten_nil, List.append_nil]
    rw [Nat.mul_succ, List.take_add]
theorem drawUserTagTable_paged (env : TableEnv) (st : State) (sortMethod : Option String)
    (descending : Option Bool) (size : Int) (hsize : env.tagsPerPage = some size)
    (hpos : 0 < size) :
    (drawUserTagTable env st sortMethod descending).pageCount =
        -(Int.fdiv (-((sortedUsers env st sortMethod descending).length : Int)) size) ∧
      (drawUserTagTable env st sortMethod descending).page =
        max (min st.page
          (-(Int.fdiv (-((sortedUsers env st sortMethod descending).length : Int)) size))) 1 ∧
      (drawUserTagTable env st sortMethod descending).rows =
        (slice (sortedUsers env st sortMethod descending)
          (size * (max (min st.page
            (-(Int.fdiv (-((sortedUsers env st sortMethod descending).length : Int)) size))) 1 - 1))
          (min ((sortedUsers env st sortMethod descending).length : Int)
            (size * max (min st.page
              (-(Int.fdiv (-((sortedUsers env st sortMethod descending).length : Int)) size)))
              1))).map (renderRow st.tags) := by
  have hne : size ≠ 0 := ne_of_gt hpos
  simp [drawUserTagTable, hsize, hne]

/-- C15, counterexample: with no row to show and a page size of 10, the stored
page count is 0 and the stored page is 1, so the page is not within the page count. -/
theorem drawUserTagTable_empty_page_count :
    (sortedUsers { tagsPerPage := some 10 } {} none none).length = 0 ∧
      (drawUserTagTable { tagsPerPage := some 10 } {} none none).pageCount = 0 ∧
      (drawUserTagTable { tagsPerPage := some 10 } {} none none).page = 1 ∧
      ¬ ((drawUserTagTable { tagsPerPage := some 10 } {} none none).page ≤
          (drawUserTagTable { tagsPerPage := some 10 } {} none none).pageCount) := by
  decide

/-- C15, amended: for every row count, every positive page size and every stored
page number, after `drawUserTagTable` the stored page count is
`ceil(rowCount / pageSize)` and the stored page is at least 1; it is at most the
page count whenever there is a row, and with no row the page count is 0 and the
page is 1. -/
theorem drawUserTagTable_page_bounds (env : TableEnv) (st : State) (sortMethod : Option String)
    (descending : Option Bool) (size : Int) (hsize : env.tagsPerPage = some size)
    (hpos : 0 < size) :
    (drawUserTagTable env st sortMethod descending).pageCount =
        ⌈((sortedUsers env st sortMethod descending).length : ℚ) / (size : ℚ)⌉ ∧
      1 ≤ (drawUserTagTable env st sortMethod descending).page ∧
      (1 ≤ (sortedUsers env st sortMethod descending).length →
        (drawUserTagTable env st sortMethod descending).page ≤
          (drawUserTagTable env st sortMethod descending).pageCount) ∧
      ((sortedUsers env st sortMethod descending).length = 0 →
        (drawUserTagTable env st sortMethod descending).pageCount = 0 ∧
          (drawUserTagTable env st sortMethod descending).page = 1) := by
  obtain ⟨h1, h2, _⟩ := drawUserTagTable_paged env st sortMethod descending size hsize hpos
  obtain ⟨b1, b2⟩ :=
    pageCount_bounds ((sortedUsers env st sortMethod descending).length : Int) size hpos
  have hceil :=
    pageCount_eq_ceil ((sortedUsers env st sortMethod descending).length : Int) size hpos
  rw [h1, h2]
  generalize -(Int.fdiv (-((sortedUsers env st sortMethod descending).length : Int)) size) = P
    at b1 b2 hceil ⊢
  generalize (sortedUsers env st sortMethod descending).length = c at b1 b2 hceil ⊢
  refine ⟨?_, le_max_right _ _, ?_, ?_⟩
  · rw [hceil]
    norm_cast
  · intro hc
    have hp : 1 ≤ P := by
      by_contra hlt
      have h0 : P ≤ 0 := by omega
      have hc' : (1 : Int) ≤ (c : Int) := by exact_mod_cast hc
      nlinarith
    exact max_le (min_le_right _ _) hp
  · intro hc
    subst hc
    have b1' : (P - 1) * size < 0 := by simpa using b1
    have b2' : 0 ≤ P * size := by simpa using b2
    have e1 : P ≤ 0 := by
      by_contra hlt
      have : 1 ≤ P := by omega
      nlinarith
    have e2 : 0 ≤ P := by
      by_contra hlt
      have : P ≤ -1 := by omega
      nlinarith
    have hz : P = 0 := by omega
    subst hz
    refine ⟨rfl, ?_⟩
    rcases le_total st.page 0 with hle | hle
    · rw [min_eq_left hle, max_eq_right (by omega)]
    · rw [min_eq_right hle]
      rfl

/-- Witness for C15: three rows, two per page, stored page 5: the page becomes 2 of 2. -/
theorem drawUserTagTable_page_bounds_witness :
    (drawUserTagTable { filterType := some "all users", tagsPerPage := some 2 }
        { tags := [("alice", {}), ("bob", {}), ("carol", {})], page := 5 } none none).page ≤
      (drawUserTagTable { filterType := some "all users", tagsPerPage := some 2 }
        { tags := [("alice", {}), ("bob", {}), ("carol", {})], page := 5 } none none).pageCount :=
  (drawUserTagTable_page_bounds { filterType := some "all users", tagsPerPage := some 2 }
    { tags := [("alice", {}), ("bob", {}), ("carol", {})], page := 5 } none none 2 rfl
    (by decide)).2.2.1 (by decide)

theorem drawUserTagTable_rows_of_page (env : TableEnv) (st : State)
    (sortMethod : Option String) (descending : Option Bool) (size : Int)
    (hsize : env.tagsPerPage = some size) (hpos : 0 < size) (i : Nat)
    (hi : (i : Int) + 1 ≤ (drawUserTagTable env st sortMethod descending).pageCount) :
    (drawUserTagTable env { st with page := (i : Int) + 1 } sortMethod descending).rows =
        (slice (sortedUsers env st sortMethod descending) (size * (((i : Int) + 1) - 1))
          (min ((sortedUsers env st sortMethod descending).length : Int)
            (size * ((i : Int) + 1)))).map (renderRow st.tags) ∧
      slice (sortedUsers env st sortMethod descending) (size * (((i : Int) + 1) - 1))
          (min ((sortedUsers env st sortMethod descending).length : Int)
            (size * ((i : Int) + 1))) =
        ((sortedUsers env st sortMethod descending).drop (size.toNat * i)).take size.toNat ∧
      size.toNat * i < (sortedUsers env st sortMethod descending).length := by
  obtain ⟨h1, _, _⟩ := drawUserTagTable_paged env st sortMethod descending size hsize hpos
  obtain ⟨_, _, h3⟩ := drawUserTagTable_paged env { st with page := (i : Int) + 1 }
    sortMethod descending size hsize hpos
  have hs : sortedUsers env { st with page := (i : Int) + 1 } sortMethod descending =
      sortedUsers env st sortMethod descending := rfl
  obtain ⟨b1, _⟩ :=
    pageCount_bounds ((sortedUsers env st sortMethod descending).length : Int) size hpos
  rw [h1] at hi
  rw [hs] at h3
  have hpage : max (min ((i : Int) + 1)
      (-(Int.fdiv (-((sortedUsers env st sortMethod descending).length : Int)) size))) 1 =
      (i : Int) + 1 := by
    rw [min_eq_left hi]
    exact max_eq_left (by omega)
  have hpage' : ({ st with page := (i : Int) + 1 } : State).page = (i : Int) + 1 := rfl
  rw [hpage', hpage] at h3
  have hn : ((size.toNat : Nat) : Int) = size := Int.toNat_of_nonneg (le_of_lt hpos)
  have hlt : size.toNat * i < (sortedUsers env st sortMethod descending).length := by
    have : (size : Int) * (i : Int) < ((sortedUsers env st sortMethod descending).length : Int) := by
      generalize -(Int.fdiv (-((sortedUsers env st sortMethod descending).length : Int)) size) = P
        at b1 hi
      nlinarith
    rw [← hn] at this
    exact_mod_cast this
  refine ⟨h3, ?_, hlt⟩
  have := slice_page (sortedUsers env st sortMethod descending) size.toNat i (le_of_lt hlt)
  rw [hn] at this
  exact this

/-- C20: for a page size `size > 0` and a non-empty sorted list, the rows
`drawUserTagTable` shows for the pages 1 to `pageCount` are each the slice from
`size*(page-1)` to `min(count, size*page)`, non-empty and at most `size` long,
and the user names of these pages, concatenated in page order, are the whole
sorted list. -/
theorem drawUserTagTable_pages_partition (env : TableEnv) (st : State)
    (sortMethod : Option String) (descending : Option Bool) (size : Int)
    (hsize : env.tagsPerPage = some size) (hpos : 0 < size)
    (hrows : sortedUsers env st sortMethod descending ≠ []) :
    (∀ i : Nat, (i : Int) + 1 ≤ (drawUserTagTable env st sortMethod descending).pageCount →
      (drawUserTagTable env { st with page := (i : Int) + 1 } sortMethod descending).rows =
          (slice (sortedUsers env st sortMethod descending) (size * (((i : Int) + 1) - 1))
            (min ((sortedUsers env st sortMethod descending).length : Int)
              (size * ((i : Int) + 1)))).map (renderRow st.tags) ∧
        (drawUserTagTable env { st with page := (i : Int) + 1 } sortMethod descending).rows ≠ [] ∧
        (((drawUserTagTable env { st with page := (i : Int) + 1 } sortMethod
          descending).rows.length : Nat) : Int) ≤ size) ∧
    1 ≤ (drawUserTagTable env st sortMethod descending).pageCount ∧
    ((List.range (drawUserTagTable env st sortMethod descending).pageCount.toNat).map fun (i : Nat) =>
        (drawUserTagTable env { st with page := (i : Int) + 1 } sortMethod
          descending).rows.map Row.user).flatten =
      sortedUsers env st sortMethod descending := by
  have hn : ((size.toNat : Nat) : Int) = size := Int.toNat_of_nonneg (le_of_lt hpos)
  have hnpos : 0 < size.toNat := by
    have : (0 : Int) < (size.toNat : Int) := by rw [hn]; exact hpos
    exact_mod_cast this
  obtain ⟨h1, _, _⟩ := drawUserTagTable_paged env st sortMethod descending size hsize hpos
  obtain ⟨b1, b2⟩ :=
    pageCount_bounds ((sortedUsers env st sortMethod descending).length : Int) size hpos
  have hlen : 0 < (sortedUsers env st sortMethod descending).length :=
    List.length_pos.2 hrows
  have hmap : ∀ l : List String, (l.map (renderRow st.tags)).map Row.user = l := by
    intro l
    simp [List.map_map, Function.comp_def, renderRow]
  refine ⟨fun i hi => ?_, ?_, ?_⟩
  · obtain ⟨r1, r2, r3⟩ :=
      drawUserTagTable_rows_of_page env st sortMethod descending size hsize hpos i hi
    refine ⟨r1, ?_, ?_⟩
    · rw [r1, r2]
      intro hnil
      have hl := congrArg List.length hnil
      simp only [List.length_map, List.length_take, List.length_drop, List.length_nil] at hl
      omega
    · rw [r1, r2]
      simp only [List.length_map, List.length_take, List.length_drop]
      rw [← hn]
      exact_mod_cast Nat.min_le_left _ _
  · rw [h1]
    generalize -(Int.fdiv (-((sortedUsers env st sortMethod descending).length : Int)) size) = P
      at b1 b2
    by_contra hlt
    have h0 : P ≤ 0 := by omega
    have hc : (1 : Int) ≤ ((sortedUsers env st sortMethod descending).length : Int) := by
      exact_mod_cast hlen
    nlinarith
  · have hcongr : ((List.range (drawUserTagTable env st sortMethod descending).pageCount.toNat).map
        fun (i : Nat) => (drawUserTagTable env { st with page := (i : Int) + 1 } sortMethod
          descending).rows.map Row.user) =
        ((List.range (drawUserTagTable env st sortMethod descending).pageCount.toNat).map
          fun (i : Nat) => ((sortedUsers env st sortMethod descending).drop (size.toNat * i)).take
            size.toNat) := by
      apply List.map_congr_left
      intro i hi
      have hi' : (i : Int) + 1 ≤ (drawUserTagTable env st sortMethod descending).pageCount := by
        have := List.mem_range.1 hi
        omega
      obtain ⟨r1, r2, _⟩ :=
        drawUserTagTable_rows_of_page env st sortMethod descending size hsize hpos i hi'
      rw [r1, hmap, r2]
    rw [hcongr, pages_flatten]
    apply List.take_of_length_le
    rw [h1]
    generalize -(Int.fdiv (-((sortedUsers env st sortMethod descending).length : Int)) size) = P
      at b1 b2
    have hP : 0 ≤ P := by
      by_contra hlt
      have h0 : P ≤ -1 := by omega
      have hc : (1 : Int) ≤ ((sortedUsers env st sortMethod descending).length : Int) := by
        exact_mod_cast hlen
      nlinarith
    have hPn : ((P.toNat : Nat) : Int) = P := Int.toNat_of_nonneg hP
    have : ((sortedUsers env st sortMethod descending).length : Int) ≤
        ((size.toNat * P.toNat : Nat) : Int) := by
      push_cast
      rw [hn, hPn]
      linarith
    exact_mod_cast this

/-- Witness for C20: three rows, two per page, give the pages `alice, bob` and `carol`. -/
theorem drawUserTagTable_pages_partition_witness :
    ((List.range (drawUserTagTable { filterType := some "all users", tagsPerPage := some 2 }
        { tags := [("alice", {}), ("bob", {}), ("carol", {})] } none none).pageCount.toNat).map
      fun (i : Nat) => (drawUserTagTable { filterType := some "all users", tagsPerPage := some 2 }
        { tags := [("alice", {}), ("bob", {}), ("carol", {})], page := (i : Int) + 1 }
        none none).rows.map Row.user).flatten =
      sortedUsers { filterType := some "all users", tagsPerPage := some 2 }
        { tags := [("alice", {}), ("bob", {}), ("carol", {})] } none none :=
  (drawUserTagTable_pages_partition { filterType := some "all users", tagsPerPage := some 2 }
    { tags := [("alice", {}), ("bob", {}), ("carol", {})] } none none 2 rfl (by decide)
    (by decide)).2.2

/-! ## The tag table sorted by tag -/

theorem compareStrings_le_iff (x y : String) : compareStrings x y ≤ 0 ↔ jsGt x y = false := by
  unfold compareStrings
  cases hg : jsGt x y with
  | true => simp
  | false =>
    cases hl : jsGt y x with
    | true => simp
    | false => simp

theorem jsSort_compareStrings_sorted (key : String → String) (l : List String) :
    (jsSort (fun a b => compareStrings (key a) (key b)) l).Pairwise
      fun a b => jsGt (key a) (key b) = false := by
  haveI : IsTotal String (fun a b => compareStrings (key a) (key b) ≤ 0) :=
    ⟨fun a b => by
      rw [compareStrings_le_iff, compareStrings_le_iff]
      cases hg : jsGt (key a) (key b) with
      | false => exact Or.inl rfl
      | true => exact Or.inr (lexLt_asymm _ _ hg)⟩
  haveI : IsTrans String (fun a b => compareStrings (key a) (key b) ≤ 0) :=
    ⟨fun a b c hab hbc => by
      rw [compareStrings_le_iff] at hab hbc ⊢
      cases hg : jsGt (key a) (key c) with
      | false => rfl
      | true =>
        rcases lexLt_cotrans _ (codeUnits (key b).data) _ hg with h | h
        · have : jsGt (key b) (key c) = true := h
          rw [hbc] at this
          cases this
        · have : jsGt (key a) (key b) = true := h
          rw [hab] at this
          cases this⟩
  exact (List.sorted_insertionSort (fun a b => compareStrings (key a) (key b) ≤ 0) l).imp
    fun h => (compareStrings_le_iff _ _).1 h

/-- C16, counterexample: sorted by tag, ascending, the user `bob` without a tag is
shown before the user `alice` whose tag is `~later`, a tag that sorts after
`zzzzz`. -/
theorem drawUserTagTable_tag_untagged_first :
    (drawUserTagTable { filterType := some "all users" }
        { tags := [("alice", { tag := some "~later" }), ("bob", { votes := some 1 })] }
        (some "tag") (some false)).rows.map Row.user = ["bob", "alice"] := by
  decide

/-- C16, amended: when `drawUserTagTable` sorts by tag, ascending, a record
without a tag sorts as if its tag were `zzzzz`: the sorted array is in
non-decreasing order of the lowercased tag with `zzzzz` standing for a missing
one, so no user without a tag comes before a user whose lowercased tag sorts
before `zzzzz`; the sorted array is a permutation of the filtered user names.
The lowercase mapping is whatever the engine applies to the tags. -/
theorem drawUserTagTable_tag_ascending (env : TableEnv) (st : State) :
    List.Perm (sortedUsers env st (some "tag") (some false))
      ((st.tags.map Prod.fst).filter fun k =>
        if env.filterType = some "tagged users" then ((Assoc.get st.tags k).getD {}).tag.isSome
        else true) ∧
    (sortedUsers env st (some "tag") (some false)).Pairwise (fun a b =>
      jsGt
        (match ((Assoc.get st.tags a).getD {}).tag with
          | none => "zzzzz"
          | some t => env.toLowerCase t)
        (match ((Assoc.get st.tags b).getD {}).tag with
          | none => "zzzzz"
          | some t => env.toLowerCase t) = false) ∧
    (sortedUsers env st (some "tag") (some false)).Pairwise (fun a b =>
      ¬ (((Assoc.get st.tags a).getD {}).tag = none ∧
          ∃ t, ((Assoc.get st.tags b).getD {}).tag = some t ∧
            jsLt (env.toLowerCase t) "zzzzz" = true)) ∧
    (env.tagsPerPage = none →
      (drawUserTagTable env st (some "tag") (some false)).rows.map Row.user =
        sortedUsers env st (some "tag") (some false)) := by
  have hs : sortedUsers env st (some "tag") (some false) =
      jsSort (compareByTag env.toLowerCase st.tags) (taggedUsers env st.tags) := by
    simp [sortedUsers, sortUsers, nextSortMethod, nextDescending, truthy]
  have hmap : ∀ l : List String, (l.map (renderRow st.tags)).map Row.user = l := by
    intro l
    simp [List.map_map, Function.comp_def, renderRow]
  have hsorted := jsSort_compareStrings_sorted
    (fun a => match ((Assoc.get st.tags a).getD {}).tag with
      | none => "zzzzz"
      | some t => env.toLowerCase t) (taggedUsers env st.tags)
  refine ⟨?_, ?_, ?_, ?_⟩
  · rw [hs]
    exact (List.perm_insertionSort _ _).trans ((forInKeys_perm st.tags).filter _)
  · rw [hs]
    exact hsorted
  · rw [hs]
    refine List.Pairwise.imp ?_ hsorted
    intro a b hab hcontra
    obtain ⟨ha, t, hb, hlt⟩ := hcontra
    simp only [ha, hb] at hab
    have : jsGt "zzzzz" (env.toLowerCase t) = true := hlt
    rw [hab] at this
    cases this
  · intro hnone
    simp only [drawUserTagTable, hnone]
    rw [hmap, slice_full]

/-- Witness for C16: with the tags `pal` and none, the tagged user comes first. -/
theorem drawUserTagTable_tag_ascending_witness :
    (drawUserTagTable { filterType := some "all users" }
        { tags := [("bob", { votes := some 1 }), ("alice", { tag := some "pal" })] }
        (some "tag") (some false)).rows.map Row.user = ["alice", "bob"] :=
  ((drawUserTagTable_tag_ascending { filterType := some "all users" }
      { tags := [("bob", { votes := some 1 }), ("alice", { tag := some "pal" })] }).2.2.2
      rfl).trans
    (by decide)

/-! ## The header click handler as a state machine -/

theorem contains_addClass_active (l : List String) :
    (addClass l "active").contains "active" = true ∧
      (addClass l "active").contains "descending" = l.contains "descending" := by
  unfold addClass
  split_ifs with h
  · exact ⟨h, rfl⟩
  · simp

theorem contains_toggleClass_descending (l : List String) :
    (toggleClass l "descending").contains "descending" = !(l.contains "descending") := by
  unfold toggleClass
  by_cases h : "descending" ∈ l
  · simp [removeClass, h]
  · simp [addClass, h]

theorem contains_removeClass_active (l : List String) :
    (removeClass l "active").contains "active" = false ∧
      (removeClass l "active").contains "descending" = l.contains "descending" := by
  unfold removeClass
  constructor
  · simp
  · by_cases h : "descending" ∈ l
    · simp [h]
    · simp [h]

theorem headerCells_get_self (this' : HeaderCell) :
    ∀ (i : Nat) (hs : List HeaderCell) (c : HeaderCell), hs.get? i = some c →
      (headerCells this' i hs).get? i = some this'
  | _, [], _, h => by simp at h
  | 0, _ :: _, _, _ => by simp [headerCells]
  | i + 1, _ :: cs, c, h => by
    simp only [headerCells, List.get?_cons_succ] at h ⊢
    exact headerCells_get_self this' i cs c h

theorem headerCells_get_other (this' : HeaderCell) :
    ∀ (i j : Nat) (hs : List HeaderCell), j ≠ i →
      (headerCells this' i hs).get? j = (hs.get? j).map headerSibling
  | _, _, [], _ => by simp [headerCells]
  | 0, 0, _ :: _, h => absurd rfl h
  | 0, j + 1, _ :: cs, _ => by
    simp only [headerCells, List.get?_eq_getElem?, List.getElem?_cons_succ, List.getElem?_map]
  | i + 1, 0, _ :: _, _ => by simp [headerCells]
  | i + 1, j + 1, _ :: cs, h => by
    simp only [headerCells, List.get?_cons_succ]
    exact headerCells_get_other this' i j cs (fun hij => h (by rw [hij]))

theorem contains_delete_addClass (l : List String) :
    (addClass l "active").contains "delete" = l.contains "delete" := by
  unfold addClass
  split_ifs with h
  · rfl
  · simp

theorem contains_delete_toggleClass (l : List String) :
    (toggleClass l "descending").contains "delete" = l.contains "delete" := by
  unfold toggleClass
  split_ifs with h
  · by_cases hd : "delete" ∈ l
    · simp [removeClass, hd]
    · simp [removeClass, hd]
  · have h' : "descending" ∉ l := by simpa using h
    by_cases hd : "delete" ∈ l
    · simp [addClass, h', hd]
    · simp [addClass, h', hd]

theorem contains_delete_removeClass (l : List String) :
    (removeClass l "active").contains "delete" = l.contains "delete" := by
  unfold removeClass
  by_cases hd : "delete" ∈ l
  · simp [hd]
  · simp [hd]

theorem headerCells_map_sort (this' : HeaderCell) :
    ∀ (i : Nat) (hs : List HeaderCell) (c : HeaderCell), hs.get? i = some c →
      this'.sort = c.sort →
      (headerCells this' i hs).map HeaderCell.sort = hs.map HeaderCell.sort
  | _, [], _, h, _ => by simp at h
  | 0, c0 :: cs, c, h, hs' => by
    simp only [List.get?_cons_zero, Option.some.injEq] at h
    subst h
    simp [headerCells, hs', headerSibling, Function.comp_def]
  | i + 1, c0 :: cs, c, h, hs' => by
    simp only [headerCells, List.get?_cons_succ, List.map_cons] at h ⊢
    rw [headerCells_map_sort this' i cs c h hs']
    rfl

theorem headerKeys_truthy (hs : List HeaderCell)
    (hmap : hs.map HeaderCell.sort = initialHeader.map HeaderCell.sort) (i : Nat)
    (c : HeaderCell) (k : String) (hget : hs.get? i = some c) (hsort : c.sort = some k) :
    k ≠ "" := by
  have hmem : c.sort ∈ hs.map HeaderCell.sort :=
    List.mem_map_of_mem _ (List.get?_mem hget)
  rw [hmap, hsort] at hmem
  intro hk
  subst hk
  revert hmem
  decide

theorem headerKeys_inj (hs : List HeaderCell)
    (hmap : hs.map HeaderCell.sort = initialHeader.map HeaderCell.sort) (i j : Nat)
    (c c' : HeaderCell) (hi : hs.get? i = some c) (hj : hs.get? j = some c')
    (hsort : c.sort = c'.sort) : i = j := by
  have hnd : (hs.map HeaderCell.sort).Nodup := by
    rw [hmap]
    decide
  have hi' : (hs.map HeaderCell.sort).get? i = some c.sort := by
    simp [List.get?_eq_getElem?, List.getElem?_map] at hi ⊢
    exact ⟨c, hi, rfl⟩
  have hj' : (hs.map HeaderCell.sort).get? j = some c.sort := by
    simp [List.get?_eq_getElem?, List.getElem?_map] at hj ⊢
    exact ⟨c', hj, hsort.symm⟩
  have hlen : ∀ n x, (hs.map HeaderCell.sort).get? n = some x →
      n < (hs.map HeaderCell.sort).length := by
    intro n x hn
    by_contra hlt
    rw [List.get?_eq_none.2 (not_lt.1 hlt)] at hn
    cases hn
  rcases lt_trichotomy i j with h | h | h
  · exact absurd (hi'.trans hj'.symm)
      (List.nodup_iff_get?_ne_get?.1 hnd i j h (hlen j _ hj'))
  · exact h
  · exact absurd (hj'.trans hi'.symm)
      (List.nodup_iff_get?_ne_get?.1 hnd j i h (hlen i _ hi'))

theorem drawUserTagTable_sort_state (env : TableEnv) (st : State) (sortMethod : Option String)
    (descending : Option Bool) :
    (drawUserTagTable env st sortMethod descending).currentSortMethod =
        nextSortMethod st sortMethod ∧
      (drawUserTagTable env st sortMethod descending).isDescending =
        nextDescending st descending := by
  unfold drawUserTagTable
  simp only []
  split <;> exact ⟨rfl, rfl⟩

/-- One click on a header cell itself, from any state of the header row: the
cell's key becomes the sort key; if the cell was the active one its own descending
flag is toggled, and otherwise the order is the one its own flag tells. The other
cells lose `active` and keep their own flag. -/
theorem headerClick_cell_step (env : TableEnv) (hs : List HeaderCell) (st : State) (i : Nat)
    (this : HeaderCell) (k : String) (hcell : hs.get? i = some this)
    (hdel : this.classList.contains "delete" = false) (hsort : this.sort = some k)
    (hk : k ≠ "") :
    (headerClick env hs st i true).2.currentSortMethod = some k ∧
    (headerClick env hs st i true).2.isDescending =
      some (if this.classList.contains "active" = true then !(this.classList.contains "descending")
            else this.classList.contains "descending") ∧
    (∃ c', (headerClick env hs st i true).1.get? i = some c' ∧ c'.sort = some k ∧
      c'.classList.contains "delete" = false ∧
      c'.classList.contains "active" = true ∧
      c'.classList.contains "descending" =
        (if this.classList.contains "active" = true then !(this.classList.contains "descending")
         else this.classList.contains "descending")) ∧
    (∀ j c, j ≠ i → hs.get? j = some c →
      ∃ c', (headerClick env hs st i true).1.get? j = some c' ∧ c'.sort = c.sort ∧
        c'.classList.contains "delete" = c.classList.contains "delete" ∧
        c'.classList.contains "active" = false ∧
        c'.classList.contains "descending" = c.classList.contains "descending") ∧
    (headerClick env hs st i true).1.map HeaderCell.sort = hs.map HeaderCell.sort := by
  have hd : (addClass (if this.classList.contains "active" = true then
        toggleClass this.classList "descending" else this.classList) "active").contains
        "descending" =
      (if this.classList.contains "active" = true then !(this.classList.contains "descending")
       else this.classList.contains "descending") := by
    rw [(contains_addClass_active _).2]
    split_ifs
    · exact contains_toggleClass_descending _
    · rfl
  have hdl : (addClass (if this.classList.contains "active" = true then
        toggleClass this.classList "descending" else this.classList) "active").contains
        "delete" = false := by
    rw [contains_delete_addClass]
    split_ifs
    · rw [contains_delete_toggleClass, hdel]
    · exact hdel
  have hclick : headerClick env hs st i true =
      (headerCells
        { this with
          classList := addClass (if this.classList.contains "active" = true then
            toggleClass this.classList "descending" else this.classList) "active"
          spans := (this.spans.filter fun s => s != "sortAsc" && s != "sortDesc") ++
            [if (true && (addClass (if this.classList.contains "active" = true then
                toggleClass this.classList "descending" else this.classList) "active").contains
                "descending") = true then "sortDesc" else "sortAsc"] } i hs,
       drawUserTagTable env st this.sort
         (some (true && (addClass (if this.classList.contains "active" = true then
            toggleClass this.classList "descending" else this.classList) "active").contains
            "descending"))) := by
    unfold headerClick
    simp only [hcell, hdel, Bool.false_eq_true, if_false, if_true]
  rw [hclick]
  obtain ⟨s1, s2⟩ := drawUserTagTable_sort_state env st this.sort
    (some (true && (addClass (if this.classList.contains "active" = true then
      toggleClass this.classList "descending" else this.classList) "active").contains
      "descending"))
  refine ⟨?_, ?_, ?_, ?_, ?_⟩
  · rw [s1, hsort]
    simp [nextSortMethod, truthy, hk]
  · rw [s2]
    simp only [nextDescending, Bool.true_and, hd]
  · exact ⟨_, headerCells_get_self _ i hs this hcell, hsort, hdl,
      (contains_addClass_active _).1, hd⟩
  · intro j c hj hc
    refine ⟨headerSibling c, ?_, rfl, contains_delete_removeClass _,
      (contains_removeClass_active _).1, (contains_removeClass_active _).2⟩
    rw [headerCells_get_other _ i j hs hj, hc]
    rfl
  · exact headerCells_map_sort _ i hs this hcell rfl

theorem headerClick_sync (env : TableEnv) (hs : List HeaderCell) (st : State) (i : Nat)
    (hsync : HeaderSync hs st) :
    HeaderSync (headerClick env hs st i true).1 (headerClick env hs st i true).2 := by
  obtain ⟨hmap, hcells⟩ := hsync
  cases hget : hs.get? i with
  | none =>
    have hclick : headerClick env hs st i true = (hs, st) := by
      unfold headerClick
      simp only [hget]
    rw [hclick]
    exact ⟨hmap, hcells⟩
  | some this =>
    obtain ⟨hdel, _, _⟩ := hcells i this hget
    have hmem : this.sort ∈ initialHeader.map HeaderCell.sort := by
      rw [← hmap]
      exact List.mem_map_of_mem _ (List.get?_mem hget)
    obtain ⟨k, hsort⟩ : ∃ k, this.sort = some k := by
      cases hs' : this.sort with
      | none =>
        rw [hs'] at hmem
        exact absurd hmem (by decide)
      | some k => exact ⟨k, rfl⟩
    have hk := headerKeys_truthy hs hmap i this k hget hsort
    obtain ⟨s1, s2, ⟨c', hc', hc's, hc'del, hc'a, hc'd⟩, hother, hmap'⟩ :=
      headerClick_cell_step env hs st i this k hget hdel hsort hk
    have hkey : activeKey (headerClick env hs st i true).2 = k := by
      unfold activeKey
      rw [s1]
    have hflag : descendingFlag (headerClick env hs st i true).2 =
        (if this.classList.contains "active" = true then !(this.classList.contains "descending")
         else this.classList.contains "descending") := by
      unfold descendingFlag
      rw [s2]
      cases (if this.classList.contains "active" = true then
        !(this.classList.contains "descending") else this.classList.contains "descending") <;> rfl
    refine ⟨hmap'.trans hmap, ?_⟩
    intro j c hj
    by_cases hji : j = i
    · subst hji
      rw [hc'] at hj
      cases hj
      refine ⟨hc'del, ?_, ?_⟩
      · rw [hkey]
        exact ⟨fun _ => hc's, fun _ => hc'a⟩
      · intro _
        rw [hflag]
        exact hc'd
    · cases hgj : hs.get? j with
      | none =>
        have hlen : (headerClick env hs st i true).1.length = hs.length := by
          have := congrArg List.length hmap'
          simpa using this
        have hnone : (headerClick env hs st i true).1.get? j = none := by
          rw [List.get?_eq_none] at hgj ⊢
          omega
        rw [hnone] at hj
        cases hj
      | some c0 =>
        obtain ⟨c'', hc'', hs'', hdel'', ha'', _⟩ := hother j c0 hji hgj
        rw [hc''] at hj
        cases hj
        refine ⟨?_, ?_, ?_⟩
        · rw [hdel'']
          exact (hcells j c0 hgj).1
        · rw [ha'', hkey]
          constructor
          · intro h
            cases h
          · intro h
            exact absurd (headerKeys_inj hs hmap j i c0 this hgj hget
              (by rw [← hs'', h, hsort])) hji
        · intro h
          rw [ha''] at h
          cases h

theorem headerClicks_sync (env : TableEnv) (clicks : List Nat) :
    ∀ (hs : List HeaderCell) (st : State), HeaderSync hs st →
      HeaderSync (headerClicks env (hs, st) (clicks.map fun i => (i, true))).1
        (headerClicks env (hs, st) (clicks.map fun i => (i, true))).2 := by
  induction clicks with
  | nil =>
    intro hs st h
    exact h
  | cons i rest ih =>
    intro hs st h
    simp only [List.map_cons, headerClicks]
    exact ih _ _ (headerClick_sync env hs st i h)

theorem headerClicks_append (env : TableEnv) (l2 : List (Nat × Bool)) :
    ∀ (l1 : List (Nat × Bool)) (s : List HeaderCell × State),
      headerClicks env s (l1 ++ l2) = headerClicks env (headerClicks env s l1) l2
  | [], s => rfl
  | (i, t) :: l1, s => by
    simp only [List.cons_append, headerClicks]
    exact headerClicks_append env l2 l1 _

theorem cellClicks_snoc (env : TableEnv) (st : State) (clicks : List Nat) (i : Nat) :
    cellClicks env st (clicks ++ [i]) =
      headerClick env (cellClicks env st clicks).1 (cellClicks env st clicks).2 i true := by
  unfold cellClicks
  rw [List.map_append, headerClicks_append]
  rfl

theorem cellClicks_sync (env : TableEnv) (st : State) (clicks : List Nat)
    (hkey : st.currentSortMethod = none) (hdesc : st.isDescending = none) :
    HeaderSync (cellClicks env st clicks).1 (cellClicks env st clicks).2 := by
  apply headerClicks_sync
  refine ⟨rfl, ?_⟩
  have hk : activeKey st = "username" := by
    unfold activeKey
    rw [hkey]
  have hf : descendingFlag st = false := by
    unfold descendingFlag
    rw [hdesc]
    rfl
  rw [hk, hf]
  intro i c hget
  have hall : ∀ c ∈ initialHeader,
      c.classList.contains "delete" = false ∧
      (c.classList.contains "active" = true ↔ c.sort = some "username") ∧
      (c.classList.contains "active" = true → c.classList.contains "descending" = false) := by
    decide
  exact hall c (List.get?_mem hget)

/-- C17, counterexample: after the clicks Tag, Tag, Username the active key is
`username`; a click on the different key Tag then makes `tag` active with
descending order. -/
theorem headerClicks_other_key_descending :
    (headerClicks {} (initialHeader, {}) [(1, true), (1, true), (0, true)]).2.currentSortMethod
        = some "username" ∧
      (headerClicks {} (initialHeader, {})
        [(1, true), (1, true), (0, true), (1, true)]).2.currentSortMethod = some "tag" ∧
      (headerClicks {} (initialHeader, {})
        [(1, true), (1, true), (0, true), (1, true)]).2.isDescending = some true := by
  decide

/-- C17, amended: the header click handler as a state machine over the active
sort key and the descending flag, started by `module.go` and driven by any
sequence of clicks that land on header cells themselves. A further click on the
cell with key `k` makes `k` the active key. If `k` was the active key, the
descending flag is toggled; otherwise the flag becomes the one the cell itself
carries, which is the flag it was left with when it was last active: the clicked
cell takes the new flag as its class `descending`, and every other cell keeps
its own. -/
theorem cellClicks_state_machine (env : TableEnv) (st : State) (clicks : List Nat) (i : Nat)
    (this : HeaderCell) (k : String)
    (hkey : st.currentSortMethod = none) (hdesc : st.isDescending = none)
    (hcell : (cellClicks env st clicks).1.get? i = some this) (hsort : this.sort = some k) :
    (initialHeader.get? i).map HeaderCell.sort = some (some k) ∧
    activeKey (cellClicks env st (clicks ++ [i])).2 = k ∧
    (k = activeKey (cellClicks env st clicks).2 →
      descendingFlag (cellClicks env st (clicks ++ [i])).2 =
        !descendingFlag (cellClicks env st clicks).2) ∧
    (k ≠ activeKey (cellClicks env st clicks).2 →
      descendingFlag (cellClicks env st (clicks ++ [i])).2 =
        this.classList.contains "descending") ∧
    (∃ c', (cellClicks env st (clicks ++ [i])).1.get? i = some c' ∧ c'.sort = some k ∧
      c'.classList.contains "descending" =
        descendingFlag (cellClicks env st (clicks ++ [i])).2) ∧
    (∀ j c, j ≠ i → (cellClicks env st clicks).1.get? j = some c →
      ∃ c', (cellClicks env st (clicks ++ [i])).1.get? j = some c' ∧ c'.sort = c.sort ∧
        c'.classList.contains "descending" = c.classList.contains "descending") := by
  obtain ⟨hmap, hcells⟩ := cellClicks_sync env st clicks hkey hdesc
  obtain ⟨hdel, hact, hflag⟩ := hcells i this hcell
  have hk := headerKeys_truthy _ hmap i this k hcell hsort
  obtain ⟨s1, s2, ⟨c', hc', hc's, _, _, hc'd⟩, hother, _⟩ :=
    headerClick_cell_step env _ (cellClicks env st clicks).2 i this k hcell hdel hsort hk
  rw [cellClicks_snoc]
  have hnew : descendingFlag (headerClick env (cellClicks env st clicks).1
      (cellClicks env st clicks).2 i true).2 =
      (if this.classList.contains "active" = true then !(this.classList.contains "descending")
       else this.classList.contains "descending") := by
    unfold descendingFlag
    rw [s2]
    cases (if this.classList.contains "active" = true then
      !(this.classList.contains "descending") else this.classList.contains "descending") <;> rfl
  refine ⟨?_, ?_, ?_, ?_, ?_, ?_⟩
  · have h1 : ((cellClicks env st clicks).1.map HeaderCell.sort).get? i = some (some k) := by
      rw [List.get?_eq_getElem?, List.getElem?_map, ← List.get?_eq_getElem?, hcell]
      simp [hsort]
    rw [hmap] at h1
    rw [← h1, List.get?_eq_getElem?, List.get?_eq_getElem?, List.getElem?_map]
  · unfold activeKey
    rw [s1]
  · intro hkact
    have ha : this.classList.contains "active" = true := hact.2 (by rw [hsort, hkact])
    rw [hnew, if_pos ha, hflag ha]
  · intro hkact
    have ha : this.classList.contains "active" = false := by
      cases hb : this.classList.contains "active" with
      | false => rfl
      | true =>
        have := hact.1 hb
        rw [hsort] at this
        exact absurd (Option.some.inj this) hkact
    rw [hnew, ha]
    rfl
  · exact ⟨c', hc', hc's, by rw [hnew]; exact hc'd⟩
  · intro j c hj hc
    obtain ⟨c'', h1, h2, _, _, h5⟩ := hother j c hj hc
    exact ⟨c'', h1, h2, h5⟩

/-- Witness for C17: after a click on Tag, which sorts by `tag` ascending, a second
click on Tag keeps the key and sorts descending. -/
theorem cellClicks_state_machine_witness :
    activeKey (cellClicks {} {} ([1] ++ [1])).2 = "tag" ∧
      descendingFlag (cellClicks {} {} ([1] ++ [1])).2 = true := by
  obtain ⟨_, h2, h3, _, _, _⟩ :=
    cellClicks_state_machine {} {} [1] 1
      { sort := some "tag", classList := ["active"], spans := ["sortAsc"] } "tag" rfl rfl
      (by decide) rfl
  exact ⟨h2, (h3 (by decide)).trans (by decide)⟩

/-! ## Reconciliation of the injected stylesheets -/

theorem sanitizeStylesheetUrls_ne_empty (rows : List StylesheetRow) (u : String)
    (hu : u ∈ sanitizeStylesheetUrls rows) : u ≠ "" := by
  unfold sanitizeStylesheetUrls at hu
  rw [List.mem_filterMap] at hu
  obtain ⟨x, _, hx⟩ := hu
  cases x with
  | none => simp [truthy] at hx
  | some v =>
    by_cases hv : v = ""
    · simp [truthy, hv] at hx
    · simp [truthy, hv] at hx
      rw [← hx]
      exact hv

theorem loadStylesheets_eq (env : PageEnv) (rows : List StylesheetRow) (links : List String) :
    loadStylesheets env rows links =
      (links.filter fun href =>
        !((sanitizeStylesheetUrls (rows.filter fun row =>
            !(shouldApply env row.toggle row.applyTo row.applyList))).contains href)) ++
      (((sanitizeStylesheetUrls (rows.filter fun row =>
            shouldApply env row.toggle row.applyTo row.applyList)).filter fun url =>
          !((sanitizeStylesheetUrls (rows.filter fun row =>
            !(shouldApply env row.toggle row.applyTo row.applyList))).contains url)).filter
        fun url => !(links.contains url)) := by
  unfold loadStylesheets
  simp only []
  congr 1
  · apply List.filter_congr
    intro href hhref
    congr 1
    apply Bool.eq_iff_iff.2
    constructor
    · intro h
      rw [List.any_eq_true] at h
      obtain ⟨found, hf, hc⟩ := h
      rw [List.mem_map] at hf
      obtain ⟨url, hurl, rfl⟩ := hf
      have hne := sanitizeStylesheetUrls_ne_empty _ url hurl
      have hin : href ∈ findStylesheetElement links url := by simpa using hc
      simp only [findStylesheetElement, hne, if_false, List.mem_filter, decide_eq_true_eq] at hin
      rw [← hin.2]
      simpa using hurl
    · intro h
      have hmem : href ∈ sanitizeStylesheetUrls (rows.filter fun row =>
          !(shouldApply env row.toggle row.applyTo row.applyList)) := by simpa using h
      have hne := sanitizeStylesheetUrls_ne_empty _ href hmem
      rw [List.any_eq_true]
      exact ⟨findStylesheetElement links href, List.mem_map.2 ⟨href, hmem, rfl⟩, by
        simp [findStylesheetElement, hne, hhref]⟩
  · apply List.filter_congr
    intro url hurl
    have hne := sanitizeStylesheetUrls_ne_empty _ url (List.mem_filter.1 hurl).1
    by_cases hmem : url ∈ links
    · have h1 : (findStylesheetElement links url).length ≠ 0 := by
        simp only [findStylesheetElement, hne, if_false, ne_eq, List.length_eq_zero,
          List.filter_eq_nil_iff, not_forall]
        exact ⟨url, hmem, by simp⟩
      have h2 : links.contains url = true := by simpa using hmem
      simp [h1, h2, hmem]
    · have h1 : (findStylesheetElement links url).length = 0 := by
        simp only [findStylesheetElement, hne, if_false, List.length_eq_zero,
          List.filter_eq_nil_iff]
        intro a ha hua
        exact hmem (by rw [of_decide_eq_true hua]; exact ha)
      have h2 : links.contains url = false := by simpa using hmem
      simp [h1, h2, hmem]

/-- C18, counterexample: two rows name the subreddit `foo`; the first passes
`shouldApply` and the second fails it. The stylesheet of the passing row is not
injected, and a link injected for it before is removed. -/
theorem loadStylesheets_failing_row_wins :
    shouldApply ⟨fun _ => true, none⟩ none "everywhere" none = true ∧
      shouldApply ⟨fun _ => true, none⟩ none "include" (some "bar") = false ∧
      sanitizeStylesheetUrls [{ url := "foo", applyTo := "everywhere" }] =
        ["/r/foo/stylesheet.css"] ∧
      loadStylesheets ⟨fun _ => true, none⟩
        [{ url := "foo", applyTo := "everywhere" },
         { url := "foo", applyTo := "include", applyList := some "bar" }] [] = [] ∧
      loadStylesheets ⟨fun _ => true, none⟩
        [{ url := "foo", applyTo := "everywhere" },
         { url := "foo", applyTo := "include", applyList := some "bar" }]
        ["/r/foo/stylesheet.css"] = [] := by
  decide

/-- C18, amended: after `loadStylesheets`, no link is left for the stylesheet url
of a row that fails `shouldApply`, also when a passing row names the same url;
the stylesheet url of a passing row that no failing row names is linked; it is
linked exactly once when it was linked at most once before and exactly one
passing row names it; and the links of a url that no row names are as before. -/
theorem loadStylesheets_reconciles (env : PageEnv) (rows : List StylesheetRow)
    (links : List String) :
    (∀ u, u ∈ sanitizeStylesheetUrls (rows.filter fun row =>
          !(shouldApply env row.toggle row.applyTo row.applyList)) →
      u ∉ loadStylesheets env rows links) ∧
    (∀ u, u ∈ sanitizeStylesheetUrls (rows.filter fun row =>
          shouldApply env row.toggle row.applyTo row.applyList) →
      u ∉ sanitizeStylesheetUrls (rows.filter fun row =>
          !(shouldApply env row.toggle row.applyTo row.applyList)) →
      u ∈ loadStylesheets env rows links) ∧
    (∀ u, u ∉ sanitizeStylesheetUrls (rows.filter fun row =>
          !(shouldApply env row.toggle row.applyTo row.applyList)) →
      links.count u ≤ 1 →
      (sanitizeStylesheetUrls (rows.filter fun row =>
          shouldApply env row.toggle row.applyTo row.applyList)).count u = 1 →
      (loadStylesheets env rows links).count u = 1) ∧
    (∀ u, u ∉ sanitizeStylesheetUrls (rows.filter fun row =>
          !(shouldApply env row.toggle row.applyTo row.applyList)) →
      u ∉ sanitizeStylesheetUrls (rows.filter fun row =>
          shouldApply env row.toggle row.applyTo row.applyList) →
      (loadStylesheets env rows links).count u = links.count u) := by
  rw [loadStylesheets_eq]
  generalize sanitizeStylesheetUrls (rows.filter fun row =>
    !(shouldApply env row.toggle row.applyTo row.applyList)) = remove
  generalize sanitizeStylesheetUrls (rows.filter fun row =>
    shouldApply env row.toggle row.applyTo row.applyList) = passing
  refine ⟨?_, ?_, ?_, ?_⟩
  · intro u hu hmem
    rcases List.mem_append.1 hmem with h | h
    · have := (List.mem_filter.1 h).2
      simp [hu] at this
    · have := (List.mem_filter.1 (List.mem_filter.1 h).1).2
      simp [hu] at this
  · intro u hp hr
    by_cases hl : u ∈ links
    · exact List.mem_append.2 (Or.inl (List.mem_filter.2 ⟨hl, by simp [hr]⟩))
    · exact List.mem_append.2 (Or.inr (List.mem_filter.2
        ⟨List.mem_filter.2 ⟨hp, by simp [hr]⟩, by simp [hl]⟩))
  · intro u hr hone hcount
    rw [List.count_append]
    have hq1 : (fun href => !(remove.contains href)) u = true := by simp [hr]
    have e1 : (links.filter fun href => !(remove.contains href)).count u = links.count u :=
      List.count_filter hq1
    have e2 : (passing.filter fun url => !(remove.contains url)).count u = passing.count u :=
      List.count_filter hq1
    rw [e1]
    by_cases hl : u ∈ links
    · have h1 : links.count u = 1 := by
        have := List.one_le_count_iff.2 hl
        omega
      have h2 : ((passing.filter fun url => !(remove.contains url)).filter
          fun url => !(links.contains url)).count u = 0 := by
        apply List.count_eq_zero_of_not_mem
        intro hmem
        have := (List.mem_filter.1 hmem).2
        simp [hl] at this
      rw [h1, h2]
    · have h1 : links.count u = 0 := List.count_eq_zero_of_not_mem hl
      have hq2 : (fun url => !(links.contains url)) u = true := by simp [hl]
      have e3 : ((passing.filter fun url => !(remove.contains url)).filter
          fun url => !(links.contains url)).count u =
          (passing.filter fun url => !(remove.contains url)).count u :=
        List.count_filter hq2
      rw [h1, e3, e2, hcount]
  · intro u hr hp
    rw [List.count_append]
    have hq1 : (fun href => !(remove.contains href)) u = true := by simp [hr]
    have e1 : (links.filter fun href => !(remove.contains href)).count u = links.count u :=
      List.count_filter hq1
    rw [e1]
    have h2 : ((passing.filter fun url => !(remove.contains url)).filter
        fun url => !(links.contains url)).count u = 0 := by
      apply List.count_eq_zero_of_not_mem
      intro hmem
      exact hp (List.mem_filter.1 (List.mem_filter.1 hmem).1).1
    rw [h2]
    rfl

/-- Witness for C18: one passing row naming `foo`, nothing linked yet: the
stylesheet of `foo` is linked exactly once. -/
theorem loadStylesheets_reconciles_witness :
    (loadStylesheets ⟨fun _ => true, some "pics"⟩ [{ url := "foo" }] []).count
      "/r/foo/stylesheet.css" = 1 :=
  (loadStylesheets_reconciles ⟨fun _ => true, some "pics"⟩ [{ url := "foo" }] []).2.2.1
    "/r/foo/stylesheet.css" (by decide) (by decide) (by decide)

/-! ## When a marker is rendered -/

theorem applyTagToAuthor_markers (h : Host) (lay : Layout) (tags : Store) (d : Dom)
    (obj : AuthorObj) (name : String) (hnew : obj.id ∉ d.applied)
    (hfound : (if truthy obj.href = true then usernameREMatch (obj.href.getD "").data
      else if truthy obj.dataUser = true then obj.dataUser
      else if truthy obj.innerText = true then obj.innerText
      else some "") = some name) :
    (applyTagToAuthor h lay tags d (some obj) false).markers =
      (if (h.options.showTaggingIcon || (readTags tags (toLowerCase name)).isSome) = true then
         addAuthorTag h { d with applied := obj.id :: d.applied } obj false (toLowerCase name)
           (readTags tags (toLowerCase name))
       else { d with applied := obj.id :: d.applied }).markers := by
  have hc : d.applied.contains obj.id = false := by simpa using hnew
  unfold applyTagToAuthor
  simp only [hc, Bool.false_eq_true, if_false, hfound]
  split_ifs <;> first | rfl | exact (ignore_frame _ _ _ _ _).2

theorem readTags_own (tags : Store) (key : String) (h1 : key ≠ "constructor")
    (h2 : key ≠ "__proto__") : readTags tags key = Assoc.get tags key := by
  unfold readTags
  cases Assoc.get tags key with
  | none => simp [h1, h2]
  | some r => rfl

/-- C19, counterexample: with the tagging icon and vote tracking switched off, an
occurrence of `bob`, who has the record `{ votes: 3 }`, gets no marker at all;
with vote tracking on it gets the vote-weight indicator but no tag marker. And
with the icon off, vote tracking on and an empty store, an occurrence of the user
`constructor` gets a vote-weight indicator, the lookup finding the inherited
property of that name. -/
theorem applyTagToAuthor_record_without_marker :
    (Assoc.get ([("bob", { votes := some 3 })] : Store) "bob").isSome = true ∧
      (applyTagToAuthor { options := { showTaggingIcon := false, trackVoteWeight := false } } {}
        [("bob", { votes := some 3 })] {} (some { id := 1, href := some "/user/bob" })
        false).markers = [] ∧
      tagMarkerCount (applyTagToAuthor { options := { showTaggingIcon := false } } {}
        [("bob", { votes := some 3 })] {} (some { id := 1, href := some "/user/bob" })
        false) 1 = 0 ∧
      (Assoc.get ([] : Store) "constructor").isSome = false ∧
      voteWeightCount (applyTagToAuthor { options := { showTaggingIcon := false } } {}
        [] {} (some { id := 1, href := some "/user/constructor" }) false) 1 = 1 := by
  decide

/-- C19, amended: when `applyTagToAuthor` processes a not yet decorated occurrence
whose author resolves to a key other than `constructor` and `__proto__`, with
editing enabled, it renders a tag marker after the occurrence iff the option to
always show the tagging icon is on or the record of the author has a non-empty
tag, and it renders a vote-weight indicator iff vote tracking is on and the icon
option is on or a record exists. -/
theorem applyTagToAuthor_renders (h : Host) (lay : Layout) (tags : Store) (d : Dom)
    (obj : AuthorObj) (name : String) (hnew : obj.id ∉ d.applied)
    (hfound : (if truthy obj.href = true then usernameREMatch (obj.href.getD "").data
      else if truthy obj.dataUser = true then obj.dataUser
      else if truthy obj.innerText = true then obj.innerText
      else some "") = some name)
    (hkey : toLowerCase name ≠ "constructor" ∧ toLowerCase name ≠ "__proto__") :
    tagMarkerCount (applyTagToAuthor h lay tags d (some obj) false) obj.id =
        tagMarkerCount d obj.id +
          (if h.options.showTaggingIcon = true ∨
              truthy ((Assoc.get tags (toLowerCase name)).getD {}).tag = true then 1 else 0) ∧
      voteWeightCount (applyTagToAuthor h lay tags d (some obj) false) obj.id =
        voteWeightCount d obj.id +
          (if h.options.trackVoteWeight = true ∧
              (h.options.showTaggingIcon = true ∨
                (Assoc.get tags (toLowerCase name)).isSome = true) then 1 else 0) := by
  have hm := applyTagToAuthor_markers h lay tags d obj name hnew hfound
  rw [readTags_own tags (toLowerCase name) hkey.1 hkey.2] at hm
  unfold tagMarkerCount voteWeightCount
  rw [hm]
  cases hrec : Assoc.get tags (toLowerCase name) with
  | none =>
    cases hicon : h.options.showTaggingIcon <;> cases htrack : h.options.trackVoteWeight <;>
      simp [addAuthorTag, addUserTag, addTrackVoteWeight, hicon, htrack, truthy,
        List.filter_cons, Marker.isUserTag, Marker.isVoteWeight]
  | some r =>
    cases hicon : h.options.showTaggingIcon <;> cases htrack : h.options.trackVoteWeight <;>
      by_cases htag : truthy r.tag = true <;>
      simp [addAuthorTag, addUserTag, addTrackVoteWeight, hicon, htrack, htag,
        List.filter_cons, Marker.isUserTag, Marker.isVoteWeight]

/-- Witness for C19: with the default options an occurrence of an unknown user
gets the tag marker and the vote-weight indicator. -/
theorem applyTagToAuthor_renders_witness :
    tagMarkerCount (applyTagToAuthor {} {} [] {} (some { id := 1, href := some "/user/bob" })
        false) 1 = 1 ∧
      voteWeightCount (applyTagToAuthor {} {} [] {} (some { id := 1, href := some "/user/bob" })
        false) 1 = 1 :=
  applyTagToAuthor_renders {} {} [] {} { id := 1, href := some "/user/bob" } "bob"
    (by decide) (by decide) (by decide)

/-! ## Worked examples -/

theorem roundDouble_examples :
    roundDouble (2 ^ 53 + 1) = 2 ^ 53 ∧
    roundDouble (2 ^ 53 + 3) = 2 ^ 53 + 4 ∧
    roundDouble (-(2 ^ 53) - 1) = -(2 ^ 53) ∧
    roundDouble (10 ^ 23) = 99999999999999991611392 := by
  decide

theorem parseIntNumber_examples :
    parseIntNumber 12345 = 12345 ∧
    parseIntNumber (10 ^ 21 - 2 ^ 17) = 10 ^ 21 - 2 ^ 17 ∧
    parseIntNumber (10 ^ 21) = 1 ∧
    parseIntNumber (-(10 ^ 21)) = -1 ∧
    parseIntNumber 1500000000000000000000 = 1 ∧
    parseIntNumber (5 * 10 ^ 21) = 5 ∧
    parseIntNumber 99999999999999991611392 = 1 := by
  decide

theorem shouldApply_examples :
    shouldApply ⟨fun _ => true, some "foo"⟩ none "exclude" (some "foo") = false ∧
    shouldApply ⟨fun _ => true, some "bar"⟩ none "exclude" (some "foo") = true ∧
    shouldApply ⟨fun _ => true, some "Bar"⟩ none "include" (some "foo,BAR") = true ∧
    shouldApply ⟨fun _ => true, none⟩ none "include" (some "") = false := by
  decide

theorem usernameREMatch_examples :
    usernameREMatch "https://www.reddit.com/user/Some-One_1?x".data = some "Some-One_1" ∧
    usernameREMatch "/u/bob/m/multi".data = some "bob" ∧
    usernameREMatch "/user/".data = none := by
  decide

theorem forInKeys_example :
    forInKeys [("b", {}), ("10", {}), ("a", {}), ("9", {}), ("07", {})] =
      ["9", "10", "b", "a", "07"] := by
  decide

theorem drawUserTagTable_paging_example :
    (drawUserTagTable { filterType := some "all users", tagsPerPage := some 2 }
      { tags := [("alice", {}), ("bob", {}), ("carol", {})], page := 5 }
      none none).rows.map Row.user = ["carol"] := by
  decide

theorem sanitizeStylesheetUrl_examples :
    sanitizeStylesheetUrl "foo" = some "/r/foo/stylesheet.css" ∧
    sanitizeStylesheetUrl "/r/foo/" = some "/r/foo/stylesheet.css" ∧
    sanitizeStylesheetUrl "r/" = some "/r/r/stylesheet.css" ∧
    sanitizeStylesheetUrl "https://a.b.com/x.css" = some "https://a.b.com/x.css" ∧
    sanitizeStylesheetUrl "/x.css" = some "/x.css" ∧
    sanitizeStylesheetUrl "ftp://a/x" = none ∧
    sanitizeStylesheetUrl "" = none := by
  decide

theorem headerClicks_example :
    (headerClicks {} (initialHeader, {}) [(1, true)]).1 =
      [{ sort := some "username" }, { sort := some "tag", classList := ["active"], spans := ["sortAsc"] },
       { sort := some "ignore" }, { sort := some "color" }, { sort := some "votes" }] := by
  decide

end RES

